import Mathlib

/-!
Verification of the `automation_traverse` task engine
(`src/automation_traverse/task.py` and `src/automation_traverse/runner.py`)
against its natural-language specification.

The Python source is shallowly embedded: mutable objects become explicit
state passing, exceptions become explicit outcome values, and callables
registered at runtime (teardown callbacks, task bodies) are identified by
numeric ids whose behaviour is supplied by an environment parameter.
Logging, emitters, configuration files, timing and the `pdb` debugger have
no effect on the state the claims speak about and are not modelled.
-/

set_option maxHeartbeats 1000000

namespace AutomationTraverse

/-- The five task statuses (`RUN_SKIP` .. `RUN_CATASTROPHIC` in `task.py`,
which aliases the corresponding `LogLevel` members). `Task.status` is an
`Option TaskStatus`, `none` standing for Python `None` (unset). -/
inductive TaskStatus where
  | SKIP
  | SUCCESS
  | FAIL
  | ERROR
  | CATASTROPHIC
deriving DecidableEq, Repr

/-! ## Python dictionaries

Python `dict`s preserve insertion order.  They are modelled as association
lists kept in insertion order; `dictSet` models `d[k] = v` (update the
existing slot in place, else append at the end) and `dictGet` models
`d[k]` / `k in d` lookup. -/

/-- Model of Python `d[k] = v` on an insertion-ordered dictionary. -/
def dictSet {α β : Type} [DecidableEq α] : List (α × β) → α → β → List (α × β)
  | [], k, v => [(k, v)]
  | (k0, v0) :: rest, k, v =>
    if k0 = k then (k0, v) :: rest else (k0, v0) :: dictSet rest k v

/-- Model of Python `d[k]` (`some` iff `k in d`). -/
def dictGet {α β : Type} [DecidableEq α] : List (α × β) → α → Option β
  | [], _ => Option.none
  | (k0, v0) :: rest, k => if k0 = k then some v0 else dictGet rest k

/-! ## Task argument values

`TaskArgValue = Union[None, str, int, float, bool]` in `task.py`.  Floats
are not modelled (no claim depends on them); `pyRepr` models Python
`repr` on the remaining kinds, for strings without quotes or backslashes
(no claim uses other strings). -/

/-- A task argument value (`TaskArgValue` in `task.py`, floats omitted). -/
inductive TaskArgValue where
  | none
  | bool (b : Bool)
  | int (n : Int)
  | str (s : String)
deriving DecidableEq, Repr

/-- Python `repr` of a `TaskArgValue`. -/
def TaskArgValue.pyRepr : TaskArgValue → String
  | .none => "None"
  | .bool true => "True"
  | .bool false => "False"
  | .int n => toString n
  | .str s => "'" ++ s ++ "'"

/-- An argument dictionary, in insertion order (a Python `dict`). -/
abbrev ArgDict : Type := List (String × TaskArgValue)

/-! ## The heap of argument dictionaries

In Python, `Task.args` is a reference to a dict object; `Task.__init__`
does `self.args = args or {}`, so a truthy (non-empty) dict passed in is
aliased, while `None` or an empty dict produces a fresh empty dict.  To
state aliasing facts the heap of dictionaries is explicit: a `Store` is a
list of dict objects and tasks hold an index (`argsRef`) into it. -/

/-- The heap of argument-dictionary objects. -/
structure Store where
  dicts : List ArgDict
deriving DecidableEq, Repr

/-- Dereference a dictionary (out-of-range references read as empty;
well-formed programs never produce them). -/
def Store.get (σ : Store) (r : Nat) : ArgDict :=
  σ.dicts.getD r []

/-- Allocate a fresh dictionary object, returning its reference. -/
def Store.alloc (σ : Store) (d : ArgDict) : Nat × Store :=
  (σ.dicts.length, ⟨σ.dicts ++ [d]⟩)

/-- Mutate the dictionary object behind reference `r` in place. -/
def Store.put (σ : Store) (r : Nat) (d : ArgDict) : Store :=
  ⟨σ.dicts.set r d⟩

/-! ## Task instances

A `Task` instance (`task.py`, `class Task`).  The class of the instance is
a numeric index into a class table (see `TaskCls` below).  `context`,
`config`, `start_time` and `time_taken` are logging/timing state with no
bearing on any claim and are not modelled.  Teardown callbacks are numeric
ids; `teardown_stack` keeps the most recently registered callback at the
head (Python uses a deque and appends/pops at the right end). -/

structure Task where
  cls : Nat
  argsRef : Nat
  status : Option TaskStatus
  error : Option Nat
  error_text : Option Nat
  teardown_stack : List Nat
deriving DecidableEq, Repr

/-- `Task.__init__(self, args)`: `self.args = args or {}` (alias a truthy
dict, allocate a fresh empty dict for `None` or an empty dict), empty
teardown stack, unset status and error fields. -/
def Task.init (σ : Store) (cls : Nat) (args : Option Nat) : Task × Store :=
  let (r, σ') :=
    match args with
    | some r => if σ.get r = [] then σ.alloc [] else (r, σ)
    | Option.none => σ.alloc []
  (⟨cls, r, Option.none, Option.none, Option.none, []⟩, σ')

/-- `Task.clone`: `return self.__class__(self.args)` — construct a new
instance of the same class, passing the existing args dict object. -/
def Task.clone (σ : Store) (t : Task) : Task × Store :=
  Task.init σ t.cls (some t.argsRef)

/-- `Task.add_teardown`: `self.teardown_stack.append(fcn)`. -/
def Task.add_teardown (t : Task) (fcn : Nat) : Task :=
  { t with teardown_stack := fcn :: t.teardown_stack }

/-! ## Running teardown callbacks

A callback environment `raises : Nat → Bool` says whether invoking a given
callback raises an exception (its other effects are outside the modelled
state).  A `TeardownRun` records what one pass over the stack did. -/

/-- Outcome of `Task.teardown`: the stack left behind, the callbacks that
were invoked in order, and the callback whose invocation raised, if any. -/
structure TeardownRun where
  stack : List Nat
  called : List Nat
  raised : Option Nat
deriving DecidableEq, Repr

/-- `Task.teardown`: `while self.teardown_stack: self.teardown_stack.pop()()`.
Each callback is popped before it is invoked; an exception propagates,
leaving the rest of the stack in place. -/
def Task.teardown (raises : Nat → Bool) : List Nat → TeardownRun
  | [] => ⟨[], [], Option.none⟩
  | f :: rest =>
    if raises f then ⟨rest, [f], some f⟩
    else
      let r := Task.teardown raises rest
      ⟨r.stack, f :: r.called, r.raised⟩

/-- Result of `Task.teardown_to_function`. -/
inductive TdfOutcome where
  | returned
  | assertionError
  | raised (f : Nat)
deriving DecidableEq, Repr

/-- `Task.teardown_to_function(fcn)`: pop and invoke callbacks until the
popped one equals `fcn` (checked after invoking it), raising
`AssertionError` if the stack is exhausted first.  Returns the remaining
stack, the invoked callbacks in order, and how the call ended. -/
def Task.teardown_to_function (raises : Nat → Bool) (fcn : Nat) :
    List Nat → List Nat × List Nat × TdfOutcome
  | [] => ([], [], .assertionError)
  | f :: rest =>
    if raises f then (rest, [f], .raised f)
    else if f = fcn then (rest, [f], .returned)
    else
      let (st, called, out) := Task.teardown_to_function raises fcn rest
      (st, f :: called, out)

/-- `Task.execute_teardown`: run `teardown()` (a vacuous call when the
stack is empty); any exception sets status `CATASTROPHIC` together with
`error`/`error_text`; afterwards an unset status becomes `SUCCESS`.
Returns the updated task and the callbacks that were invoked. -/
def Task.execute_teardown (raises : Nat → Bool) (t : Task) : Task × List Nat :=
  let r := Task.teardown raises t.teardown_stack
  let t1 : Task :=
    match r.raised with
    | some f =>
      { t with teardown_stack := r.stack, status := some .CATASTROPHIC,
               error := some f, error_text := some f }
    | Option.none => { t with teardown_stack := r.stack }
  let t2 := if t1.status = Option.none then { t1 with status := some .SUCCESS } else t1
  (t2, r.called)

/-! ## `args_from_str` and `ast.literal_eval`

`args_from_str` splits on `,`, splits each pair once on `=`, and feeds the
right-hand side to `ast.literal_eval`.  `literal_eval` below models the
standard library's `ast.literal_eval` on the literal forms exercised here:
`None`, `True`, `False`, integers (with optional `-`), single- or
double-quoted strings without escape sequences, and (nested) list
displays.  Notably `ast.literal_eval` accepts container literals such as
`[]`, which is what decides claim C9; floats, tuples, dicts and sets are
accepted by Python as well but not needed by any claim. -/

/-- A Python literal value as produced by `ast.literal_eval`. -/
inductive PyLit where
  | none
  | bool (b : Bool)
  | int (n : Int)
  | str (s : String)
  | list (xs : List PyLit)
deriving Repr

/-- Skip blanks, as Python's expression tokenizer does between tokens. -/
def skipSpaces : List Char → List Char
  | ' ' :: cs => skipSpaces cs
  | cs => cs

/-- Split a leading run of decimal digits. -/
def takeDigits : List Char → List Char × List Char
  | [] => ([], [])
  | c :: cs =>
    if c.isDigit then
      let (ds, rest) := takeDigits cs
      (c :: ds, rest)
    else ([], c :: cs)

/-- Value of a digit run. -/
def digitsToNat (ds : List Char) : Nat :=
  ds.foldl (fun a c => a * 10 + (c.toNat - 48)) 0

/-- Scan up to the closing quote `q` (escape sequences are not modelled;
no claim uses strings containing quotes or backslashes). -/
def takeUntilQuote (q : Char) : List Char → Option (List Char × List Char)
  | [] => Option.none
  | c :: cs =>
    if c = q then some ([], cs)
    else (takeUntilQuote q cs).map fun p => (c :: p.1, p.2)

mutual

/-- Read one literal from the input, returning it and the rest. -/
def readLit : Nat → List Char → Option (PyLit × List Char)
  | 0, _ => Option.none
  | fuel + 1, cs0 =>
    match skipSpaces cs0 with
    | 'N' :: 'o' :: 'n' :: 'e' :: rest => some (.none, rest)
    | 'T' :: 'r' :: 'u' :: 'e' :: rest => some (.bool true, rest)
    | 'F' :: 'a' :: 'l' :: 's' :: 'e' :: rest => some (.bool false, rest)
    | '\'' :: rest =>
      (takeUntilQuote '\'' rest).map fun p => (.str (String.mk p.1), p.2)
    | '"' :: rest =>
      (takeUntilQuote '"' rest).map fun p => (.str (String.mk p.1), p.2)
    | '-' :: rest =>
      match takeDigits (skipSpaces rest) with
      | ([], _) => Option.none
      | (ds, rest') => some (.int (-(digitsToNat ds : Int)), rest')
    | '[' :: rest =>
      match skipSpaces rest with
      | ']' :: r2 => some (.list [], r2)
      | _ => (readItems fuel rest).map fun p => (.list p.1, p.2)
    | c :: rest =>
      if c.isDigit then
        let (ds, rest') := takeDigits (c :: rest)
        some (.int (digitsToNat ds), rest')
      else Option.none
    | [] => Option.none

/-- Read comma-separated literals up to a closing `]`. -/
def readItems : Nat → List Char → Option (List PyLit × List Char)
  | 0, _ => Option.none
  | fuel + 1, cs =>
    match readLit fuel cs with
    | Option.none => Option.none
    | some (v, rest) =>
      match skipSpaces rest with
      | ',' :: r2 => (readItems fuel r2).map fun p => (v :: p.1, p.2)
      | ']' :: r2 => some ([v], r2)
      | _ => Option.none

end

/-- Model of `ast.literal_eval` (on the literal subset described above):
the whole string must be consumed, else the call raises. -/
def literal_eval (s : String) : Option PyLit :=
  match readLit (s.data.length + 1) s.data with
  | some (v, rest) => if skipSpaces rest = [] then some v else Option.none
  | Option.none => Option.none

/-- Python `str.split(sep)` for a one-character separator (the only kind
`args_from_str` uses): split at every occurrence; the empty string gives
`[""]`. -/
def splitChar (sep : Char) : List Char → List (List Char)
  | [] => [[]]
  | c :: rest =>
    let r := splitChar sep rest
    if c = sep then [] :: r
    else
      match r with
      | [] => [[c]]
      | d :: ds => (c :: d) :: ds

/-- Python `str.split(sep, 1)` for a one-character separator: split at
the first occurrence only (`none` when the separator does not occur, in
which case `split` returns a single token). -/
def splitOnce (sep : Char) : List Char → Option (List Char × List Char)
  | [] => Option.none
  | c :: rest =>
    if c = sep then some ([], rest)
    else (splitOnce sep rest).map fun p => (c :: p.1, p.2)

/-- Loop body of `args_from_str`: one `k=v` pair per comma-separated
token; `pair.split("=", 1)` yielding fewer than two tokens raises
`ValueError("arg value ... invalid")`; the value text goes through
`ast.literal_eval` (whose own failures propagate as exceptions with
their own message). -/
def args_from_str_go : List (List Char) → List (String × PyLit) →
    Except String (List (String × PyLit))
  | [], acc => .ok acc
  | pair :: rest, acc =>
    match splitOnce '=' pair with
    | some (k, v) =>
      match literal_eval (String.mk v) with
      | some lit => args_from_str_go rest (dictSet acc (String.mk k) lit)
      | Option.none => .error ("malformed node or string")
    | Option.none => .error ("arg value " ++ String.mk pair ++ " invalid")

/-- `args_from_str(string)`: an empty string yields an empty dict, else
split on `,` and process each pair. -/
def args_from_str (s : String) : Except String (List (String × PyLit)) :=
  if s = "" then .ok []
  else args_from_str_go (splitChar ',' s.data) []

/-! ## Task classes and the runner graph (`runner.py`, graph construction)

A task class (`type[Task]`) carries its defining module, its name, its
`PARENTS` (direct base classes that are tasks) and the keys of its merged
`ARGUMENTS` mapping — the pieces of the metaclass-computed data that
`RunnerGraph.add_task` consults.  Classes live in a table indexed by
`Task.cls`. -/

structure TaskCls where
  module : String
  name : String
  parents : List Nat
  arguments : List String
deriving DecidableEq, Repr

/-- Look a class up in the class table. -/
def clsGet (env : List TaskCls) (c : Nat) : TaskCls :=
  env.getD c ⟨"", "", [], []⟩

/-- `Task.__str__`: `ClassName(k1=repr(v1),k2=repr(v2),...)` with the args
in dict insertion order. -/
def Task.toStr (env : List TaskCls) (σ : Store) (t : Task) : String :=
  (clsGet env t.cls).name ++ "(" ++
    String.intercalate "," ((σ.get t.argsRef).map fun kv => kv.1 ++ "=" ++ kv.2.pyRepr)
    ++ ")"

/-- `RunnerNode.generate_key`: `f"{task.__class__.__module__}.{task}"`. -/
def RunnerNode.generate_key (env : List TaskCls) (σ : Store) (t : Task) : String :=
  (clsGet env t.cls).module ++ "." ++ Task.toStr env σ t

/-- A `RunnerNode` as built by `RunnerGraph.add_task`: the owned task and
the parent/child links (indices into the graph's node arena). -/
structure GNode where
  task : Task
  parents : List Nat
  children : List Nat
deriving DecidableEq, Repr

/-- The mutable state of a `RunnerGraph`: the root node, the
deduplication dict `all_nodes` (key → node index) and the node arena. -/
structure GraphState where
  root : Option Nat
  all_nodes : List (String × Nat)
  nodes : List GNode
deriving DecidableEq, Repr

/-- The empty graph (`RunnerGraph.__init__` before any task is added). -/
def GraphState.empty : GraphState := ⟨Option.none, [], []⟩

/-- `parent_node.children.append(node)`. -/
def appendChild (g : GraphState) (p nid : Nat) : GraphState :=
  match g.nodes.get? p with
  | some nd => { g with nodes := g.nodes.set p { nd with children := nd.children ++ [nid] } }
  | Option.none => g

/-- The parent loop of `add_task`, parameterised by the recursive call
`add`: for each parent class, build `parent(parent_args)` where
`parent_args` is the dict comprehension
`{k: v for k, v in task.args.items() if k in parent.ARGUMENTS}` (a new
dict object), and add it (with `allow_duplicate` false). -/
def RunnerGraph.add_parents (env : List TaskCls)
    (add : Task → Bool → GraphState → Store → Option (Nat × GraphState × Store))
    (task : Task) :
    List Nat → GraphState → Store → List Nat → Option (List Nat × GraphState × Store)
  | [], g, σ, acc => some (acc, g, σ)
  | p :: ps, g, σ, acc =>
    let pcls := clsGet env p
    let parent_args : ArgDict :=
      (σ.get task.argsRef).filter fun kv => pcls.arguments.contains kv.1
    let (r, σ1) := σ.alloc parent_args
    let (ptask, σ2) := Task.init σ1 p (some r)
    match add ptask false g σ2 with
    | Option.none => Option.none
    | some (pnid, g1, σ3) => RunnerGraph.add_parents env add task ps g1 σ3 (acc ++ [pnid])

/-- `RunnerGraph.add_task(task, allow_duplicate)`:

1. compute the key; if it is already registered, return the existing node
   (note: regardless of `allow_duplicate`);
2. else add each parent class recursively, passing down the args whose
   keys appear in that parent's `ARGUMENTS` (a fresh dict object);
3. create the node, register it under the key unless `allow_duplicate`,
   set the root if still unset, and append the node to each parent's
   `children`.

The class hierarchy is finite and acyclic in Python; `fuel` bounds the
recursion depth, `Option.none` meaning the bound was too small. -/
def RunnerGraph.add_task (env : List TaskCls) :
    Nat → Task → Bool → GraphState → Store → Option (Nat × GraphState × Store)
  | 0, _, _, _, _ => Option.none
  | fuel + 1, task, allow_duplicate, g, σ =>
    let key := RunnerNode.generate_key env σ task
    match dictGet g.all_nodes key with
    | some nid => some (nid, g, σ)
    | Option.none =>
      match RunnerGraph.add_parents env (RunnerGraph.add_task env fuel) task
          ((clsGet env task.cls).parents) g σ [] with
      | Option.none => Option.none
      | some (parent_nodes, g1, σ1) =>
        let nid := g1.nodes.length
        let g2 := { g1 with nodes := g1.nodes ++ [(⟨task, parent_nodes, []⟩ : GNode)] }
        let g3 :=
          if allow_duplicate then g2
          else { g2 with all_nodes := dictSet g2.all_nodes key nid }
        let g4 := if g3.root = Option.none then { g3 with root := some nid } else g3
        let g5 := parent_nodes.foldl (fun gg p => appendChild gg p nid) g4
        some (nid, g5, σ1)

/-! ## Cycle-safe traversal (`RunnerNode.forwards` / `RunnerNode.reversed`)

Both generators are the same preorder depth-first traversal with a shared
visited set, over `children` resp. `parents`.  `dfsVisit` yields the
visit order and the final visited set; the fuel bounds nesting depth and
`n` always suffices (proved below). -/

/-- The `for child in ...: yield from child.forwards(visited)` loop,
parameterised by the generator call `f` for one node. -/
def dfsFold {n : Nat} (f : Fin n → Finset (Fin n) → List (Fin n) × Finset (Fin n)) :
    List (Fin n) → Finset (Fin n) → List (Fin n) × Finset (Fin n)
  | [], vis => ([], vis)
  | j :: js, vis =>
    let r1 := f j vis
    let r2 := dfsFold f js r1.2
    (r1.1 ++ r2.1, r2.2)

/-- One generator call: yield `i` unless already visited, then recurse
into its adjacent nodes left to right. -/
def dfsVisit {n : Nat} (adj : Fin n → List (Fin n)) :
    Nat → Fin n → Finset (Fin n) → List (Fin n) × Finset (Fin n)
  | 0, _, vis => ([], vis)
  | fuel + 1, i, vis =>
    if i ∈ vis then ([], vis)
    else
      let r := dfsFold (dfsVisit adj fuel) (adj i) (insert i vis)
      (i :: r.1, r.2)

/-! ## The runner graph at execution time

`RunnerGraph.add_task` links `parents` and `children` once, before the
run; the run itself never rewires them, so the execution model takes the
edges as a static `Graph` and keeps only the per-node mutable fields in
the state.  Nodes are `Fin n`. -/

structure Graph (n : Nat) where
  parents : Fin n → List (Fin n)
  children : Fin n → List (Fin n)

/-- `node.forwards()` (also `iter(node)`): self first, then children,
depth-first, each reachable node once. -/
def forwardsList {n : Nat} (g : Graph n) (i : Fin n) : List (Fin n) :=
  (dfsVisit g.children n i ∅).1

/-- `node.reversed()`: self first, then parents, depth-first. -/
def reversedList {n : Nat} (g : Graph n) (i : Fin n) : List (Fin n) :=
  (dfsVisit g.parents n i ∅).1

/-- Reachability along `children` edges (the "descendant" relation;
reflexive). -/
def ChildReach {n : Nat} (g : Graph n) : Fin n → Fin n → Prop :=
  Relation.ReflTransGen fun x y => y ∈ g.children x

/-- Reachability along `parents` edges (the "ancestor" relation;
reflexive). -/
def ParentReach {n : Nat} (g : Graph n) : Fin n → Fin n → Prop :=
  Relation.ReflTransGen fun x y => y ∈ g.parents x

/-- The mutable per-node state: the owned task's `status` / `error` /
`error_text` plus the node flags `run_complete`, `children_complete`,
`complete` (`run_attrs` carries presented attributes, which no claim
inspects, and is not modelled). -/
structure NodeSt where
  status : Option TaskStatus
  error : Option Nat
  error_text : Option Nat
  run_complete : Bool
  children_complete : Bool
  complete : Bool
deriving DecidableEq, Repr

/-- A freshly constructed (or `reset`) node: the task has unset status
and error fields, and all flags are false. -/
def NodeSt.fresh : NodeSt :=
  ⟨Option.none, Option.none, Option.none, false, false, false⟩

/-- Observable events of a run: a node's `task.execute_run` returned
(recording the task status it left behind), or a node's
`execute_teardown` was invoked. -/
inductive Event (n : Nat) where
  | ranTask (i : Fin n) (result : Option TaskStatus)
  | toreNode (i : Fin n)
deriving DecidableEq, Repr

/-- The run state: per-node state, a count of how often each node's task
has been executed (indexing the behaviour environment), and the event
log. -/
structure RSt (n : Nat) where
  node : Fin n → NodeSt
  attempts : Fin n → Nat
  log : List (Event n)

/-- Update one node's state. -/
def RSt.setNode {n : Nat} (st : RSt n) (i : Fin n) (v : NodeSt) : RSt n :=
  { st with node := Function.update st.node i v }

/-- The all-fresh starting state. -/
def RSt.init (n : Nat) : RSt n :=
  ⟨fun _ => NodeSt.fresh, fun _ => 0, []⟩

/-- The nodes whose `execute_teardown` was invoked, in order. -/
def tornIds {n : Nat} : List (Event n) → List (Fin n) :=
  List.filterMap fun e =>
    match e with
    | .toreNode i => some i
    | _ => Option.none

/-- The nodes whose task was executed, in order. -/
def ranIds {n : Nat} : List (Event n) → List (Fin n) :=
  List.filterMap fun e =>
    match e with
    | .ranTask i _ => some i
    | _ => Option.none

/-- `RunOptions` (`runner.py`).  `config_filepath`, `emitters`, `debug`
and `between_tasks` have no effect on the modelled state and are
omitted. -/
structure RunOptions where
  random_order : Bool
  failfast : Bool
  rerun_failures : Option Nat
deriving DecidableEq, Repr

/-- `RunOptions.__init__`: everything off. -/
def RunOptions.default : RunOptions := ⟨false, false, Option.none⟩

/-- How a task's `execute_run` can end when setup/run raises: `TaskSkip`,
`AssertionError` or any other exception. -/
inductive RunFailKind where
  | skip
  | fail
  | error
deriving DecidableEq, Repr

/-- The status `Task.execute_run` records for each exception class. -/
def RunFailKind.toStatus : RunFailKind → TaskStatus
  | .skip => .SKIP
  | .fail => .FAIL
  | .error => .ERROR

/-- Behaviour environment for the tasks held by the nodes: what the k-th
execution of node `i`'s task does in `setup`/`run` (`none` = no
exception, so the status is left as it was), which error value and
traceback it records, whether its teardown callbacks raise (making
`execute_teardown` end `CATASTROPHIC`), and whether the node holds a bare
base-class `Task` (which the runner neither runs nor tears down). -/
structure TaskBeh (n : Nat) where
  runFail : Fin n → Nat → Option RunFailKind
  runErr : Fin n → Nat → Option Nat
  runErrText : Fin n → Nat → Option Nat
  tdCata : Fin n → Bool
  isBase : Fin n → Bool

/-- Control-flow exceptions of the runner (`FinishRun`, `StopRun`), plus
fuel exhaustion of the model (no Python counterpart; theorems are stated
for runs that do not exhaust their fuel). -/
inductive RunErr where
  | finishRun
  | stopRun
  | fuelOut
deriving DecidableEq, Repr

/-- A possibly-raising result. -/
abbrev Outcome (α : Type) : Type := Except RunErr α

instance {ε α : Type} [DecidableEq ε] [DecidableEq α] : DecidableEq (Except ε α) := fun x y =>
  match x, y with
  | .ok a, .ok b =>
    if h : a = b then .isTrue (by rw [h]) else .isFalse fun hh => h (Except.ok.inj hh)
  | .error a, .error b =>
    if h : a = b then .isTrue (by rw [h]) else .isFalse fun hh => h (Except.error.inj hh)
  | .ok _, .error _ => .isFalse fun hh => Except.noConfusion hh
  | .error _, .ok _ => .isFalse fun hh => Except.noConfusion hh

/-- `RunnerNode.reset` (non-recursive): replace the task by a fresh clone
and clear all node flags. -/
def RunnerNode.reset {n : Nat} (i : Fin n) (st : RSt n) : RSt n :=
  st.setNode i NodeSt.fresh

/-- `RunnerNode.reset(recursive=True)`: reset this node and every node
reachable through `children` (the Python code carries a visited set; the
per-node effect is idempotent and order-independent, so folding over the
forwards order is equivalent). -/
def RunnerNode.reset_recursive {n : Nat} (g : Graph n) (i : Fin n) (st : RSt n) : RSt n :=
  (forwardsList g i).foldl (fun s j => RunnerNode.reset j s) st

/-- `RunnerNode.check_complete`. -/
def RunnerNode.check_complete {n : Nat} (st : RSt n) (i : Fin n) : Bool :=
  (st.node i).complete

/-- `RunnerNode.check_can_run` (a tautology over `check_complete`). -/
def RunnerNode.check_can_run {n : Nat} (st : RSt n) (i : Fin n) : Bool :=
  !(RunnerNode.check_complete st i)

/-- `RunnerNode.finish_node`: recompute `children_complete` from the
children; an unfinished node is `reset` for a later visit, a finished one
becomes `complete` (`between_tasks` has no modelled effect). -/
def RunnerNode.finish_node {n : Nat} (g : Graph n) (i : Fin n) (st : RSt n) : RSt n :=
  let cc := (g.children i).all fun c => (st.node c).complete
  let st1 := st.setNode i { st.node i with children_complete := cc }
  if cc then st1.setNode i { st1.node i with complete := true }
  else RunnerNode.reset i st1

/-- `RunnerNode.execute_teardown`: for a real task, run
`task.execute_teardown` (an exception in the callbacks turns the status
`CATASTROPHIC`, otherwise an unset status becomes `SUCCESS`); if the
status is now `CATASTROPHIC`, clear `run_complete`, finish every node of
`self.reversed()` and raise `StopRun`.  A bare base-class task is not
torn down; its status is set to `SUCCESS` directly.  In either normal
case, clear `run_complete` and finish the node.  (The emitter
notifications, including those of the re-raising `except` block, are not
modelled; the error fields a catastrophic task teardown records are not
modelled because the behaviour environment carries no exception value.) -/
def RunnerNode.execute_teardown {n : Nat} (g : Graph n) (beh : TaskBeh n)
    (i : Fin n) (st : RSt n) : Outcome Unit × RSt n :=
  let st := { st with log := st.log ++ [Event.toreNode i] }
  if beh.isBase i then
    let st := st.setNode i { st.node i with status := some .SUCCESS, run_complete := false }
    (.ok (), RunnerNode.finish_node g i st)
  else
    let old := st.node i
    let newStatus : Option TaskStatus :=
      if beh.tdCata i then some .CATASTROPHIC
      else if old.status = Option.none then some .SUCCESS
      else old.status
    let st := st.setNode i { old with status := newStatus }
    if newStatus = some .CATASTROPHIC then
      let st := st.setNode i { st.node i with run_complete := false }
      let st := (reversedList g i).foldl (fun s j => RunnerNode.finish_node g j s) st
      (.error .stopRun, st)
    else
      let st := st.setNode i { st.node i with run_complete := false }
      (.ok (), RunnerNode.finish_node g i st)

/-- The cascade loop of `update_status`: `for child in self`, skipping
`self`, mark the child `children_complete` and `complete` and copy
`status`/`error`/`error_text` from this node's task. -/
def RunnerNode.cascade {n : Nat} (i : Fin n) (st : RSt n) (l : List (Fin n)) : RSt n :=
  l.foldl
    (fun s c =>
      if c = i then s
      else s.setNode c { s.node c with
        children_complete := true, complete := true,
        status := (s.node i).status, error := (s.node i).error,
        error_text := (s.node i).error_text })
    st

/-- `RunnerNode.update_status(opts)`: mark `run_complete`; under
`opts.failfast` a set non-`SKIP` status tears the node down immediately
and raises `FinishRun`; an unset status just returns; otherwise the
status is propagated to every descendant (`for child in self`, skipping
`self`), marking each `children_complete` and `complete` and copying
`status`/`error`/`error_text`. -/
def RunnerNode.update_status {n : Nat} (g : Graph n) (beh : TaskBeh n)
    (opts : RunOptions) (i : Fin n) (st : RSt n) : Outcome Unit × RSt n :=
  let st := st.setNode i { st.node i with run_complete := true }
  if opts.failfast ∧ (st.node i).status ≠ Option.none ∧ (st.node i).status ≠ some .SKIP then
    match RunnerNode.execute_teardown g beh i st with
    | (.ok _, st1) => (.error .finishRun, st1)
    | (.error e, st1) => (.error e, st1)
  else if (st.node i).status = Option.none then (.ok (), st)
  else
    let st := st.setNode i { st.node i with children_complete := true }
    (.ok (), RunnerNode.cascade i st (forwardsList g i))

/-- The ancestry `set(wrt.reversed())` computed by
`teardown_outstanding`. -/
def RunnerNode.ancestorSet {n : Nat} (g : Graph n) (wrt : Fin n) : Finset (Fin n) :=
  (reversedList g wrt).toFinset

/-- The worklist loop of `teardown_outstanding`: pop one node (`pick`
models both `random.choice` under `opts.random_order` and the set
iteration order otherwise — neither is specified, so any valid `pick` is
a possible execution); a node outside the ancestry is torn down and its
parents join the worklist.  `StopRun` from a catastrophic teardown
propagates out of the loop. -/
def RunnerNode.teardown_go {n : Nat} (g : Graph n) (beh : TaskBeh n)
    (pick : Finset (Fin n) → Fin n) (anc : Finset (Fin n)) :
    Nat → Finset (Fin n) → RSt n → Outcome Unit × Finset (Fin n) × RSt n
  | 0, work, st => (.error .fuelOut, work, st)
  | fuel + 1, work, st =>
    if work = ∅ then (.ok (), work, st)
    else
      let t := pick work
      let work1 := work.erase t
      if t ∈ anc then RunnerNode.teardown_go g beh pick anc fuel work1 st
      else
        match RunnerNode.execute_teardown g beh t st with
        | (.ok _, st1) =>
          RunnerNode.teardown_go g beh pick anc fuel (work1 ∪ (g.parents t).toFinset) st1
        | (.error e, st1) => (.error e, work1, st1)

/-- `RunnerNode.teardown_outstanding(outstanding_nodes, wrt, opts)`:
compute `all_ancestors = set(wrt.reversed())` and drain the worklist. -/
def RunnerNode.teardown_outstanding {n : Nat} (g : Graph n) (beh : TaskBeh n)
    (pick : Finset (Fin n) → Fin n) (fuel : Nat) (outstanding : Finset (Fin n))
    (wrt : Fin n) (st : RSt n) : Outcome Unit × Finset (Fin n) × RSt n :=
  RunnerNode.teardown_go g beh pick (RunnerNode.ancestorSet g wrt) fuel outstanding st

/-- The parent loop of `find_outstanding_nodes`, parameterised by the
recursive call `visit`. -/
def RunnerNode.fosList {n : Nat} (st : RSt n)
    (visit : Fin n → Finset (Fin n) → Finset (Fin n) → Option (Finset (Fin n))) :
    List (Fin n) → Finset (Fin n) → Finset (Fin n) → Option (Finset (Fin n))
  | [], _, acc => some acc
  | p :: ps, path, acc =>
    if p ∈ path then RunnerNode.fosList st visit ps path acc
    else if (st.node p).run_complete then RunnerNode.fosList st visit ps path (insert p acc)
    else
      match visit p path acc with
      | Option.none => Option.none
      | some acc1 => RunnerNode.fosList st visit ps path acc1

/-- `RunnerNode.find_outstanding_nodes(path, outstanding)`: walk up
through the parents, skipping nodes on `path`; a `run_complete` parent is
added, otherwise the walk continues above it.  (No visited set; the
recursion terminates because the graphs `add_task` builds are acyclic —
the fuel bounds the depth, `none` meaning it was too small.) -/
def RunnerNode.fosVisit {n : Nat} (g : Graph n) (st : RSt n) :
    Nat → Fin n → Finset (Fin n) → Finset (Fin n) → Option (Finset (Fin n))
  | 0, _, _, _ => Option.none
  | fuel + 1, i, path, acc =>
    RunnerNode.fosList st (RunnerNode.fosVisit g st fuel) (g.parents i) path acc

/-- The parent loop of `execute_run`, parameterised by the recursive call
`execRun` (which carries `path` and the default `outstanding_nodes=None`);
`ok true` is the early return. -/
def RunnerNode.erParents {n : Nat}
    (execRun : Fin n → RSt n → Outcome (Finset (Fin n)) × RSt n) :
    List (Fin n) → RSt n → Outcome Bool × RSt n
  | [], st => (.ok false, st)
  | p :: ps, st =>
    if (st.node p).run_complete then RunnerNode.erParents execRun ps st
    else
      match execRun p st with
      | (.error e, st1) => (.error e, st1)
      | (.ok _, st1) =>
        if !(st1.node p).run_complete then (.ok true, st1)
        else if (st1.node p).status ≠ Option.none then (.ok true, st1)
        else RunnerNode.erParents execRun ps st1

/-- `RunnerNode.execute_run(outstanding_nodes, path, opts)`:

1. a non-empty `outstanding_nodes` is torn down with respect to `self`;
2. each parent that is not `run_complete` is executed recursively;
   if it still is not `run_complete` afterwards, or reported a status,
   return `find_outstanding_nodes(path)` without running
   (`patch_dict` of `run_attrs` has no modelled effect);
3. compute the own outstanding set;
4. a node that cannot run (already complete) just returns it;
5. a real (non-base) task is executed (config, emitters and
   `patch_attrs` have no modelled effect): the behaviour environment
   decides whether setup/run raises and how it is classified;
6. `self.update_status()` — the source passes NO options here, so
   `update_status` sees a default `RunOptions` whose `failfast` is
   false (this is what makes the failfast feature unreachable);
7. the presented-attrs patch has no modelled effect; return the
   outstanding set. -/
def RunnerNode.execute_run {n : Nat} (g : Graph n) (beh : TaskBeh n)
    (opts : RunOptions) (pick : Finset (Fin n) → Fin n)
    (shuffle : List (Fin n) → List (Fin n)) :
    Nat → Fin n → Option (Finset (Fin n)) → Finset (Fin n) → RSt n →
    Outcome (Finset (Fin n)) × RSt n
  | 0, _, _, _, st => (.error .fuelOut, st)
  | fuel + 1, i, outstOpt, path, st =>
    let step1 : Outcome Unit × RSt n :=
      match outstOpt with
      | some S =>
        if S = ∅ then (.ok (), st)
        else
          match RunnerNode.teardown_outstanding g beh pick fuel S i st with
          | (.ok _, _, st1) => (.ok (), st1)
          | (.error e, _, st1) => (.error e, st1)
      | Option.none => (.ok (), st)
    match step1 with
    | (.error e, st1) => (.error e, st1)
    | (.ok _, st1) =>
      match RunnerNode.erParents
          (fun p s => RunnerNode.execute_run g beh opts pick shuffle fuel p Option.none path s)
          (g.parents i) st1 with
      | (.error e, st2) => (.error e, st2)
      | (.ok early, st2) =>
        match RunnerNode.fosVisit g st2 fuel i path ∅ with
        | Option.none => (.error .fuelOut, st2)
        | some outst1 =>
          if early then (.ok outst1, st2)
          else if !(RunnerNode.check_can_run st2 i) then (.ok outst1, st2)
          else
            let st3 :=
              if beh.isBase i then st2
              else
                let k := st2.attempts i
                let nd := st2.node i
                let nd1 :=
                  match beh.runFail i k with
                  | Option.none => nd
                  | some kind =>
                    { nd with status := some kind.toStatus,
                              error := beh.runErr i k,
                              error_text := beh.runErrText i k }
                let st' := st2.setNode i nd1
                { st' with attempts := Function.update st'.attempts i (k + 1),
                           log := st'.log ++ [Event.ranTask i nd1.status] }
            match RunnerNode.update_status g beh RunOptions.default i st3 with
            | (.ok _, st4) => (.ok outst1, st4)
            | (.error e, st4) => (.error e, st4)

/-- The inner `while available_children` loop of `save_the_children`,
parameterised by the recursive call `execChild` (which carries `path` and
`opts`): children that cannot run go to `leftover`; the others are
executed, landing in `finished` or `leftover` according to
`check_complete`. -/
def RunnerNode.stcInner {n : Nat}
    (execChild : Fin n → Option (Finset (Fin n)) → RSt n → Outcome (Finset (Fin n)) × RSt n) :
    List (Fin n) → Option (Finset (Fin n)) → Finset (Fin n) → Finset (Fin n) → RSt n →
    Outcome (Option (Finset (Fin n)) × Finset (Fin n) × Finset (Fin n)) × RSt n
  | [], outst, leftover, finished, st => (.ok (outst, leftover, finished), st)
  | c :: cs, outst, leftover, finished, st =>
    if !(RunnerNode.check_can_run st c) then
      RunnerNode.stcInner execChild cs outst (insert c leftover) finished st
    else
      match execChild c outst st with
      | (.error e, st1) => (.error e, st1)
      | (.ok S, st1) =>
        if !(RunnerNode.check_complete st1 c) then
          RunnerNode.stcInner execChild cs (some S) (insert c leftover) finished st1
        else
          RunnerNode.stcInner execChild cs (some S) leftover (insert c finished) st1

/-- The outer `while True` loop of `save_the_children`.  Each round
recomputes the not-yet-complete children (shuffled under
`opts.random_order`), runs the inner loop, and stops when there are no
leftovers, no progress was made (`leftover == last_leftover_children`),
or only one child was considered.  Returns the final
`outstanding_nodes` and the value `last_leftover_children` has at the
break (the source does not update it in the breaking round). -/
def RunnerNode.stcOuter {n : Nat} (g : Graph n) (opts : RunOptions)
    (shuffle : List (Fin n) → List (Fin n))
    (execChild : Fin n → Option (Finset (Fin n)) → RSt n → Outcome (Finset (Fin n)) × RSt n) :
    Nat → Fin n → Option (Finset (Fin n)) → Finset (Fin n) →
    RSt n → Outcome (Option (Finset (Fin n)) × Finset (Fin n)) × RSt n
  | 0, _, _, _, st => (.error .fuelOut, st)
  | fuel + 1, i, outst, lastLeftover, st =>
    let avail0 := (g.children i).filter fun c => !(RunnerNode.check_complete st c)
    let avail := if opts.random_order then shuffle avail0 else avail0
    match RunnerNode.stcInner execChild avail outst ∅ ∅ st with
    | (.error e, st1) => (.error e, st1)
    | (.ok (outst1, leftover, finished), st1) =>
      if leftover = ∅ then (.ok (outst1, lastLeftover), st1)
      else if leftover = lastLeftover ∨ (leftover ∪ finished).card = 1 then
        (.ok (outst1, lastLeftover), st1)
      else RunnerNode.stcOuter g opts shuffle execChild fuel i outst1 leftover st1

/-- `RunnerNode.save_the_children(path, opts)` (parameterised by the
recursive call `execChild` into `RunnerNode.execute`): nothing to do
unless the node has run and its children are pending; run the outer
loop, tear down any outstanding nodes with `self` as the reference, and
mark `children_complete` only if the recorded leftover set is empty. -/
def RunnerNode.save_the_children {n : Nat} (g : Graph n) (beh : TaskBeh n)
    (opts : RunOptions) (pick : Finset (Fin n) → Fin n)
    (shuffle : List (Fin n) → List (Fin n))
    (execChild : Fin n → Option (Finset (Fin n)) → RSt n → Outcome (Finset (Fin n)) × RSt n)
    (fuel : Nat) (i : Fin n) (st : RSt n) : Outcome Unit × RSt n :=
  if !(st.node i).run_complete || (st.node i).children_complete then (.ok (), st)
  else
    match RunnerNode.stcOuter g opts shuffle execChild fuel i Option.none ∅ st with
    | (.error e, st1) => (.error e, st1)
    | (.ok (outst, lastLeftover), st1) =>
      let step : Outcome Unit × RSt n :=
        match outst with
        | some S =>
          if S = ∅ then (.ok (), st1)
          else
            match RunnerNode.teardown_outstanding g beh pick fuel S i st1 with
            | (.ok _, _, st2) => (.ok (), st2)
            | (.error e, _, st2) => (.error e, st2)
        | Option.none => (.ok (), st1)
      match step with
      | (.error e, st2) => (.error e, st2)
      | (.ok _, st2) =>
        if lastLeftover = ∅ then
          (.ok (), st2.setNode i { st2.node i with children_complete := true })
        else (.ok (), st2)

/-- `RunnerNode.execute(outstanding_nodes, path, opts)`: run the node;
unless it short-circuited, put it on `path`, run the children until no
new ones appear (children are static in this model, so
`save_the_children` runs exactly once before the snapshot comparison
breaks the loop), take it off `path`, and tear it down.
(`between_tasks` has no modelled effect.) -/
def RunnerNode.execute {n : Nat} (g : Graph n) (beh : TaskBeh n)
    (opts : RunOptions) (pick : Finset (Fin n) → Fin n)
    (shuffle : List (Fin n) → List (Fin n)) :
    Nat → Fin n → Option (Finset (Fin n)) → Option (Finset (Fin n)) → RSt n →
    Outcome (Finset (Fin n)) × RSt n
  | 0, _, _, _, st => (.error .fuelOut, st)
  | fuel + 1, i, outstOpt, pathOpt, st =>
    let path := pathOpt.getD ∅
    match RunnerNode.execute_run g beh opts pick shuffle fuel i outstOpt path st with
    | (.error e, st1) => (.error e, st1)
    | (.ok S, st1) =>
      if !(st1.node i).run_complete then (.ok S, st1)
      else
        match RunnerNode.save_the_children g beh opts pick shuffle
            (fun c o s => RunnerNode.execute g beh opts pick shuffle fuel c o (some (insert i path)) s)
            fuel i st1 with
        | (.error e, st2) => (.error e, st2)
        | (.ok _, st2) =>
          match RunnerNode.execute_teardown g beh i st2 with
          | (.ok _, st3) => (.ok S, st3)
          | (.error e, st3) => (.error e, st3)

/-- The child loop of `teardown_all`, parameterised by the recursive
call. -/
def RunnerNode.teardown_all_list {n : Nat}
    (td : Fin n → RSt n → Outcome Unit × RSt n) :
    List (Fin n) → RSt n → Outcome Unit × RSt n
  | [], st => (.ok (), st)
  | c :: cs, st =>
    match td c st with
    | (.ok _, st1) => RunnerNode.teardown_all_list td cs st1
    | (.error e, st1) => (.error e, st1)

/-- `RunnerNode.teardown_all(opts)`: recursively tear down every node
that has run but was not yet torn down, children first. -/
def RunnerNode.teardown_all {n : Nat} (g : Graph n) (beh : TaskBeh n) :
    Nat → Fin n → RSt n → Outcome Unit × RSt n
  | 0, _, st => (.error .fuelOut, st)
  | fuel + 1, i, st =>
    if !(st.node i).run_complete then (.ok (), st)
    else
      match RunnerNode.teardown_all_list (RunnerNode.teardown_all g beh fuel) (g.children i) st with
      | (.ok _, st1) => RunnerNode.execute_teardown g beh i st1
      | (.error e, st1) => (.error e, st1)

/-- The `while True` loop of `RunnerGraph.run(opts)`: execute the root
and tear everything down (`FinishRun` is handled by tearing down and
failing, `StopRun` by failing; an exception raised inside the
`FinishRun` handler's own teardown propagates); scan all reachable nodes
for non-SKIP/SUCCESS statuses; under `rerun_failures` with retries left,
reset every failed node's subtree and its ancestor chain and go again
optimistically; stop when the root is complete.  (`clean_graph` is never
called during `run`, so the root never disappears; the emitters'
`finalize` has no modelled effect.) -/
def RunnerGraph.run_go {n : Nat} (g : Graph n) (beh : TaskBeh n)
    (opts : RunOptions) (pick : Finset (Fin n) → Fin n)
    (shuffle : List (Fin n) → List (Fin n)) (root : Fin n) :
    Nat → Nat → Bool → RSt n → Outcome Bool × RSt n
  | 0, _, _, st => (.error .fuelOut, st)
  | fuel + 1, failure_iters, success, st =>
    let tryRes : Outcome Unit × RSt n :=
      match RunnerNode.execute g beh opts pick shuffle fuel root Option.none Option.none st with
      | (.ok _, st1) =>
        match RunnerNode.teardown_all g beh fuel root st1 with
        | (.ok _, st2) => (.ok (), st2)
        | (.error e, st2) => (.error e, st2)
      | (.error e, st1) => (.error e, st1)
    match tryRes with
    | (.error .finishRun, st1) =>
      match RunnerNode.teardown_all g beh fuel root st1 with
      | (.ok _, st2) => (.ok false, st2)
      | (.error e, st2) => (.error e, st2)
    | (.error .stopRun, st1) => (.ok false, st1)
    | (.error .fuelOut, st1) => (.error .fuelOut, st1)
    | (.ok _, st1) =>
      let good := fun nd =>
        ((st1.node nd).status == some TaskStatus.SKIP)
        || ((st1.node nd).status == some TaskStatus.SUCCESS)
      let success1 := success && (forwardsList g root).all good
      if opts.rerun_failures ≠ Option.none ∧ 0 < failure_iters then
        let rerun_nodes := (forwardsList g root).filter fun nd => !(good nd)
        if rerun_nodes = [] then
          if (st1.node root).complete then (.ok success1, st1)
          else RunnerGraph.run_go g beh opts pick shuffle root fuel failure_iters success1 st1
        else
          let st2 := rerun_nodes.foldl
            (fun s nd =>
              let s1 := RunnerNode.reset_recursive g nd s
              ((reversedList g nd).tail).foldl (fun s2 p => RunnerNode.reset p s2) s1)
            st1
          RunnerGraph.run_go g beh opts pick shuffle root fuel (failure_iters - 1) true st2
      else
        if (st1.node root).complete then (.ok success1, st1)
        else RunnerGraph.run_go g beh opts pick shuffle root fuel failure_iters success1 st1

/-- `RunnerGraph.run(opts)` for a graph whose root is present. -/
def RunnerGraph.run {n : Nat} (g : Graph n) (beh : TaskBeh n)
    (opts : RunOptions) (pick : Finset (Fin n) → Fin n)
    (shuffle : List (Fin n) → List (Fin n)) (root : Fin n) (fuel : Nat)
    (st : RSt n) : Outcome Bool × RSt n :=
  RunnerGraph.run_go g beh opts pick shuffle root fuel (opts.rerun_failures.getD 0) true st

/-! ## Order predicates over teardown traces (used to state C1) -/

/-- Does a trace tear every node down before each of its parents?  (The
"bottom-up" reading of the spec: no earlier element is a parent of a
later one.) -/
def bottomUpB {n : Nat} (g : Graph n) : List (Fin n) → Bool
  | [] => true
  | x :: rest => rest.all (fun a => !((g.parents a).contains x)) && bottomUpB g rest

/-- Is every torn-down node either one of the original candidates or a
parent of some node torn down before it? -/
def expansionSeenB {n : Nat} (g : Graph n) (S : Finset (Fin n)) :
    List (Fin n) → List (Fin n) → Bool
  | _, [] => true
  | seen, t :: rest =>
    (decide (t ∈ S) || seen.any fun c => (g.parents c).contains t)
      && expansionSeenB g S (seen ++ [t]) rest

/-- Equality of two insertion-ordered dictionaries as unordered mappings
(same key-value pairs regardless of order). -/
def dictEqB {α β : Type} [DecidableEq α] [DecidableEq β]
    (d1 d2 : List (α × β)) : Bool :=
  (d1.all fun kv => dictGet d2 kv.1 == some kv.2)
    && (d2.all fun kv => dictGet d1 kv.1 == some kv.2)

/-! ## Concrete fixtures used by counterexamples and witnesses -/

/-- Three nodes; node 2 is the parent of node 1; node 0 is unrelated. -/
def exG1 : Graph 3 :=
  ⟨fun i => if i = 1 then [2] else [],
   fun i => if i = 2 then [1] else []⟩

/-- Tasks that never raise anywhere. -/
def exBehNone : TaskBeh 3 :=
  ⟨fun _ _ => Option.none, fun _ _ => Option.none, fun _ _ => Option.none,
   fun _ => false, fun _ => false⟩

/-- A valid worklist choice (one possible draw of `random.choice`, or one
possible set iteration order): the largest index present. -/
def exPickMax : Finset (Fin 3) → Fin 3 :=
  fun s => if 2 ∈ s then 2 else if 1 ∈ s then 1 else 0

/-- A valid worklist choice: the smallest index present. -/
def exPickMin : Finset (Fin 3) → Fin 3 :=
  fun s => if 0 ∈ s then 0 else if 1 ∈ s then 1 else 2

/-- Root node 0 with two children 1 and 2. -/
def exG3 : Graph 3 :=
  ⟨fun i => if i = 1 then [0] else if i = 2 then [0] else [],
   fun i => if i = 0 then [1, 2] else []⟩

/-- Node 1's task fails (an assertion) on its first execution; everything
else runs cleanly. -/
def exBehFail1 : TaskBeh 3 :=
  ⟨fun i k => if i = 1 ∧ k = 0 then some .fail else Option.none,
   fun _ _ => some 7, fun _ _ => some 8, fun _ => false, fun _ => false⟩

/-- A single parentless task class `m.T` taking arguments `a` and `b`. -/
def exEnv : List TaskCls := [⟨"m", "T", [], ["a", "b"]⟩]

/-- An instance of class 0 whose args live at store slot 0. -/
def exT0 : Task := ⟨0, 0, Option.none, Option.none, Option.none, []⟩

/-- An instance of class 0 whose args live at store slot 1. -/
def exT1 : Task := ⟨0, 1, Option.none, Option.none, Option.none, []⟩

/-- Two separate args dicts with identical contents. -/
def exSigSame : Store := ⟨[[("a", TaskArgValue.int 1)], [("a", TaskArgValue.int 1)]]⟩

/-- Two args dicts equal as mappings but in opposite insertion order. -/
def exSigSwap : Store :=
  ⟨[[("a", TaskArgValue.int 1), ("b", TaskArgValue.int 2)],
    [("b", TaskArgValue.int 2), ("a", TaskArgValue.int 1)]]⟩

/-- The graph after adding `exT0` (with `exSigSame`) to the empty
graph: one node, registered under its key. -/
def exGOne : GraphState := ⟨some 0, [("m.T(a=1)", 0)], [⟨exT0, [], []⟩]⟩

/-! # Theorems -/

/-! ## Correctness of the traversal (`forwards` / `reversed`)

`dfsVisit adj fuel i vis` visits, with enough fuel, exactly the nodes
reachable from `i` along `adj` edges and not blocked by `vis`; in
particular with `vis = ∅` and `fuel = n` its output is exactly the set of
reachable nodes. -/

theorem dfsFold_vis_eq {n : Nat}
    (f : Fin n → Finset (Fin n) → List (Fin n) × Finset (Fin n))
    (hf : ∀ j vis, (f j vis).2 = (f j vis).1.toFinset ∪ vis) :
    ∀ (l : List (Fin n)) (vis : Finset (Fin n)),
      (dfsFold f l vis).2 = (dfsFold f l vis).1.toFinset ∪ vis := by
  intro l
  induction l with
  | nil => intro vis; simp [dfsFold]
  | cons j js ih =>
    intro vis
    show (dfsFold f js (f j vis).2).2 = ((f j vis).1 ++ (dfsFold f js (f j vis).2).1).toFinset ∪ vis
    rw [ih, hf]
    ext x
    simp [List.mem_append]
    tauto

theorem dfsVisit_vis_eq {n : Nat} (adj : Fin n → List (Fin n)) :
    ∀ (fuel : Nat) (i : Fin n) (vis : Finset (Fin n)),
      (dfsVisit adj fuel i vis).2 = (dfsVisit adj fuel i vis).1.toFinset ∪ vis := by
  intro fuel
  induction fuel with
  | zero => intro i vis; simp [dfsVisit]
  | succ f ih =>
    intro i vis
    rw [dfsVisit]
    by_cases h : i ∈ vis
    · simp [h]
    · simp only [h, if_false]
      show (dfsFold (dfsVisit adj f) (adj i) (insert i vis)).2
        = (i :: (dfsFold (dfsVisit adj f) (adj i) (insert i vis)).1).toFinset ∪ vis
      rw [dfsFold_vis_eq (dfsVisit adj f) ih]
      ext x
      simp
      try tauto

theorem dfsFold_sound {n : Nat} (adj : Fin n → List (Fin n))
    (f : Fin n → Finset (Fin n) → List (Fin n) × Finset (Fin n))
    (hf : ∀ j vis x, x ∈ (f j vis).1 →
      Relation.ReflTransGen (fun a b => b ∈ adj a) j x) :
    ∀ (l : List (Fin n)) (vis : Finset (Fin n)) (x : Fin n),
      x ∈ (dfsFold f l vis).1 →
      ∃ j ∈ l, Relation.ReflTransGen (fun a b => b ∈ adj a) j x := by
  intro l
  induction l with
  | nil => intro vis x hx; simp [dfsFold] at hx
  | cons j js ih =>
    intro vis x hx
    rcases List.mem_append.mp hx with h1 | h2
    · exact ⟨j, by simp, hf j vis x h1⟩
    · obtain ⟨j', hj', hr⟩ := ih (f j vis).2 x h2
      exact ⟨j', by simp [hj'], hr⟩

theorem dfsVisit_sound {n : Nat} (adj : Fin n → List (Fin n)) :
    ∀ (fuel : Nat) (i : Fin n) (vis : Finset (Fin n)) (x : Fin n),
      x ∈ (dfsVisit adj fuel i vis).1 →
      Relation.ReflTransGen (fun a b => b ∈ adj a) i x := by
  intro fuel
  induction fuel with
  | zero => intro i vis x hx; simp [dfsVisit] at hx
  | succ f ih =>
    intro i vis x hx
    rw [dfsVisit] at hx
    by_cases h : i ∈ vis
    · simp [h] at hx
    · simp only [h, if_false] at hx
      rcases List.mem_cons.mp hx with rfl | h2
      · exact Relation.ReflTransGen.refl
      · obtain ⟨j, hj, hr⟩ := dfsFold_sound adj (dfsVisit adj f) ih (adj i) (insert i vis) x h2
        exact Relation.ReflTransGen.head hj hr

theorem dfsFold_closure {n : Nat} (adj : Fin n → List (Fin n))
    (f : Fin n → Finset (Fin n) → List (Fin n) × Finset (Fin n)) (fuel0 : Nat)
    (hvis : ∀ j vis, (f j vis).2 = (f j vis).1.toFinset ∪ vis)
    (hgood : ∀ (j : Fin n) (vis : Finset (Fin n)), n ≤ fuel0 + vis.card →
      j ∈ (f j vis).2 ∧ ∀ x ∈ (f j vis).1, ∀ c ∈ adj x, c ∈ (f j vis).2) :
    ∀ (l : List (Fin n)) (vis : Finset (Fin n)), n ≤ fuel0 + vis.card →
      (∀ r ∈ l, r ∈ (dfsFold f l vis).2) ∧
      (∀ x ∈ (dfsFold f l vis).1, ∀ c ∈ adj x, c ∈ (dfsFold f l vis).2) := by
  intro l
  induction l with
  | nil => intro vis hcard; constructor <;> simp [dfsFold]
  | cons j js ih =>
    intro vis hcard
    have hsub1 : vis ⊆ (f j vis).2 := by
      rw [hvis]; exact Finset.subset_union_right
    have hsub2 : (f j vis).2 ⊆ (dfsFold f js (f j vis).2).2 := by
      rw [dfsFold_vis_eq f hvis]; exact Finset.subset_union_right
    have hcard1 : n ≤ fuel0 + (f j vis).2.card :=
      le_trans hcard (by
        have := Finset.card_le_card hsub1
        omega)
    have ihr := ih (f j vis).2 hcard1
    have hg := hgood j vis hcard
    refine ⟨?_, ?_⟩
    · intro r hr
      rcases List.mem_cons.mp hr with rfl | hr2
      · exact hsub2 hg.1
      · exact ihr.1 r hr2
    · intro x hx c hc
      show c ∈ (dfsFold f js (f j vis).2).2
      rcases List.mem_append.mp hx with h1 | h2
      · exact hsub2 (hg.2 x h1 c hc)
      · exact ihr.2 x h2 c hc

theorem dfsVisit_closure {n : Nat} (adj : Fin n → List (Fin n)) :
    ∀ (fuel : Nat) (i : Fin n) (vis : Finset (Fin n)), n ≤ fuel + vis.card →
      i ∈ (dfsVisit adj fuel i vis).2 ∧
      ∀ x ∈ (dfsVisit adj fuel i vis).1, ∀ c ∈ adj x, c ∈ (dfsVisit adj fuel i vis).2 := by
  intro fuel
  induction fuel with
  | zero =>
    intro i vis hcard
    by_cases h : i ∈ vis
    · constructor
      · simpa [dfsVisit] using h
      · intro x hx; simp [dfsVisit] at hx
    · exfalso
      have hne : vis ≠ Finset.univ := fun hh => h (hh ▸ Finset.mem_univ i)
      have := Finset.card_lt_iff_ne_univ vis |>.mpr hne
      rw [Fintype.card_fin] at this
      omega
  | succ f ih =>
    intro i vis hcard
    rw [dfsVisit]
    by_cases h : i ∈ vis
    · constructor
      · simp [h]
      · intro x hx; simp [h] at hx
    · simp only [h, if_false]
      have hcard1 : n ≤ f + (insert i vis).card := by
        rw [Finset.card_insert_of_not_mem h]; omega
      have hfold := dfsFold_closure adj (dfsVisit adj f) f
        (fun j vis => dfsVisit_vis_eq adj f j vis)
        (fun j vis h => ih j vis h) (adj i) (insert i vis) hcard1
      have hsub : insert i vis ⊆ (dfsFold (dfsVisit adj f) (adj i) (insert i vis)).2 := by
        rw [dfsFold_vis_eq (dfsVisit adj f) (fun j vis => dfsVisit_vis_eq adj f j vis)]
        exact Finset.subset_union_right
      constructor
      · exact hsub (Finset.mem_insert_self i vis)
      · intro x hx c hc
        rcases List.mem_cons.mp hx with rfl | h2
        · exact hfold.1 c hc
        · exact hfold.2 x h2 c hc

theorem dfs_mem {n : Nat} (adj : Fin n → List (Fin n)) (i x : Fin n) :
    x ∈ (dfsVisit adj n i ∅).1 ↔
      Relation.ReflTransGen (fun a b => b ∈ adj a) i x := by
  constructor
  · exact dfsVisit_sound adj n i ∅ x
  · intro hr
    have hvis : (dfsVisit adj n i ∅).2 = (dfsVisit adj n i ∅).1.toFinset := by
      rw [dfsVisit_vis_eq adj]; simp
    have hcl := dfsVisit_closure adj n i ∅ (by simp)
    induction hr with
    | refl =>
      have := hcl.1
      rw [hvis] at this
      simpa using this
    | tail h1 h2 ih =>
      rename_i b c
      have hb := ih
      have := hcl.2 b hb c h2
      rw [hvis] at this
      simpa using this

theorem forwardsList_mem {n : Nat} (g : Graph n) (i x : Fin n) :
    x ∈ forwardsList g i ↔ ChildReach g i x :=
  dfs_mem g.children i x

theorem reversedList_mem {n : Nat} (g : Graph n) (i x : Fin n) :
    x ∈ reversedList g i ↔ ParentReach g i x :=
  dfs_mem g.parents i x

theorem ancestorSet_mem {n : Nat} (g : Graph n) (wrt x : Fin n) :
    x ∈ RunnerNode.ancestorSet g wrt ↔ ParentReach g wrt x := by
  rw [RunnerNode.ancestorSet, List.mem_toFinset]
  exact reversedList_mem g wrt x

/-- The ancestry of `wrt` is closed upward: a parent of an ancestor is an
ancestor. -/
theorem ancestorSet_parents_closed {n : Nat} (g : Graph n) (wrt x p : Fin n)
    (hx : x ∈ RunnerNode.ancestorSet g wrt) (hp : p ∈ g.parents x) :
    p ∈ RunnerNode.ancestorSet g wrt := by
  rw [ancestorSet_mem] at hx ⊢
  exact Relation.ReflTransGen.tail hx hp

/-! ## The `update_status` cascade (claim C2) -/

/-- One marking step of the cascade. -/
theorem cascade_cons {n : Nat} (i c : Fin n) (cs : List (Fin n)) (st : RSt n) :
    RunnerNode.cascade i st (c :: cs) =
      RunnerNode.cascade i
        (if c = i then st
         else st.setNode c { st.node c with
           children_complete := true, complete := true,
           status := (st.node i).status, error := (st.node i).error,
           error_text := (st.node i).error_text })
        cs := rfl

theorem cascade_preserves_log {n : Nat} (i : Fin n) (l : List (Fin n)) :
    ∀ st : RSt n, (RunnerNode.cascade i st l).log = st.log
      ∧ (RunnerNode.cascade i st l).attempts = st.attempts := by
  induction l with
  | nil => intro st; exact ⟨rfl, rfl⟩
  | cons c cs ih =>
    intro st
    rw [cascade_cons]
    by_cases hc : c = i
    · rw [if_pos hc]; exact ih st
    · rw [if_neg hc]
      have := ih (st.setNode c { st.node c with
        children_complete := true, complete := true,
        status := (st.node i).status, error := (st.node i).error,
        error_text := (st.node i).error_text })
      simpa [RSt.setNode] using this

theorem cascade_node_i {n : Nat} (i : Fin n) (l : List (Fin n)) :
    ∀ st : RSt n, (RunnerNode.cascade i st l).node i = st.node i := by
  induction l with
  | nil => intro st; rfl
  | cons c cs ih =>
    intro st
    rw [cascade_cons]
    by_cases hc : c = i
    · rw [if_pos hc]; exact ih st
    · rw [if_neg hc, ih]
      exact Function.update_noteq (fun h => hc h.symm) _ st.node

theorem cascade_outside {n : Nat} (i : Fin n) (l : List (Fin n)) :
    ∀ (st : RSt n) (x : Fin n), x ∉ l → (RunnerNode.cascade i st l).node x = st.node x := by
  induction l with
  | nil => intro st x _; rfl
  | cons c cs ih =>
    intro st x hx
    have hxc : x ≠ c := fun h => hx (h ▸ List.mem_cons_self c cs)
    have hxcs : x ∉ cs := fun h => hx (List.mem_cons_of_mem c h)
    rw [cascade_cons]
    by_cases hc : c = i
    · rw [if_pos hc]; exact ih st x hxcs
    · rw [if_neg hc, ih _ x hxcs]
      exact Function.update_noteq hxc _ st.node

theorem cascade_marks {n : Nat} (i : Fin n) (l : List (Fin n)) :
    ∀ (st : RSt n) (d : Fin n), d ∈ l → d ≠ i →
      ((RunnerNode.cascade i st l).node d).children_complete = true ∧
      ((RunnerNode.cascade i st l).node d).complete = true ∧
      ((RunnerNode.cascade i st l).node d).status = (st.node i).status ∧
      ((RunnerNode.cascade i st l).node d).error = (st.node i).error ∧
      ((RunnerNode.cascade i st l).node d).error_text = (st.node i).error_text := by
  induction l with
  | nil => intro st d hd; cases hd
  | cons c cs ih =>
    intro st d hd hdi
    rw [cascade_cons]
    by_cases hc : c = i
    · rw [if_pos hc]
      have hd' : d ∈ cs := by
        rcases List.mem_cons.mp hd with rfl | h
        · exact absurd hc hdi
        · exact h
      exact ih st d hd' hdi
    · rw [if_neg hc]
      set stm := st.setNode c { st.node c with
        children_complete := true, complete := true,
        status := (st.node i).status, error := (st.node i).error,
        error_text := (st.node i).error_text } with hstm
      have hi : stm.node i = st.node i := by
        rw [hstm]
        exact Function.update_noteq (fun h => hc h.symm) _ st.node
      by_cases hdcs : d ∈ cs
      · have := ih stm d hdcs hdi
        rw [hi] at this
        exact this
      · have hdc : d = c := by
          rcases List.mem_cons.mp hd with rfl | h
          · rfl
          · exact absurd h hdcs
        subst hdc
        rw [cascade_outside i cs stm d hdcs, hstm]
        simp [RSt.setNode]

/-- Claim C2: when `update_status` runs after a node's task finished
`execute_run` with a set status of kind SKIP/FAIL/ERROR/CATASTROPHIC (the
call site `runner.py:468` passes no options, so `update_status` runs with
a default `RunOptions` and the failfast branch cannot preempt the
cascade), every descendant (every node reachable via `children`,
excluding the node itself) is immediately marked `children_complete` and
`complete`, and its task's `status`/`error`/`error_text` are set to the
failing node's values; the call executes no task (the log and execution
counts are unchanged). -/
theorem C2_update_status_cascades {n : Nat} (g : Graph n) (beh : TaskBeh n)
    (i : Fin n) (st : RSt n) (s : TaskStatus)
    (hs : (st.node i).status = some s)
    (_hkind : s = .SKIP ∨ s = .FAIL ∨ s = .ERROR ∨ s = .CATASTROPHIC) :
    (RunnerNode.update_status g beh RunOptions.default i st).1 = .ok () ∧
    (RunnerNode.update_status g beh RunOptions.default i st).2.log = st.log ∧
    (RunnerNode.update_status g beh RunOptions.default i st).2.attempts = st.attempts ∧
    (((RunnerNode.update_status g beh RunOptions.default i st).2.node i).children_complete = true) ∧
    ∀ d, ChildReach g i d → d ≠ i →
      (((RunnerNode.update_status g beh RunOptions.default i st).2.node d).children_complete = true) ∧
      (((RunnerNode.update_status g beh RunOptions.default i st).2.node d).complete = true) ∧
      (((RunnerNode.update_status g beh RunOptions.default i st).2.node d).status = some s) ∧
      (((RunnerNode.update_status g beh RunOptions.default i st).2.node d).error = (st.node i).error) ∧
      (((RunnerNode.update_status g beh RunOptions.default i st).2.node d).error_text
        = (st.node i).error_text) := by
  clear _hkind
  have hnodei : ((st.setNode i { st.node i with run_complete := true }).node i).status = some s := by
    simp [RSt.setNode, hs]
  have hcond : ¬(RunOptions.default.failfast
      ∧ ((st.setNode i { st.node i with run_complete := true }).node i).status ≠ Option.none
      ∧ ((st.setNode i { st.node i with run_complete := true }).node i).status ≠ some .SKIP) := by
    rintro ⟨hff, -, -⟩
    simp [RunOptions.default] at hff
  have hne : ¬(((st.setNode i { st.node i with run_complete := true }).node i).status
      = Option.none) := by
    rw [hnodei]; simp
  rw [RunnerNode.update_status]
  simp only [hcond, if_false, hne, if_neg hne]
  set st1 := st.setNode i { st.node i with run_complete := true } with hst1
  set st2 := st1.setNode i { st1.node i with children_complete := true } with hst2
  have h2log : st2.log = st.log := by rw [hst2, hst1]; rfl
  have h2att : st2.attempts = st.attempts := by rw [hst2, hst1]; rfl
  have h2i : (st2.node i).status = some s ∧ (st2.node i).error = (st.node i).error
      ∧ (st2.node i).error_text = (st.node i).error_text
      ∧ (st2.node i).children_complete = true := by
    rw [hst2, hst1]
    simp [RSt.setNode, hs]
  refine ⟨?_, ?_, ?_, ?_, ?_⟩
  · trivial
  · simp only [(cascade_preserves_log i (forwardsList g i) st2).1, h2log]
  · simp only [(cascade_preserves_log i (forwardsList g i) st2).2, h2att]
  · rw [cascade_node_i]
    exact h2i.2.2.2
  · intro d hreach hdi
    have hd : d ∈ forwardsList g i := (forwardsList_mem g i d).mpr hreach
    have hm := cascade_marks i (forwardsList g i) st2 d hd hdi
    rw [h2i.1] at hm
    rw [h2i.2.1] at hm
    rw [h2i.2.2.1] at hm
    exact hm

/-! ## `teardown_outstanding` (claim C1) -/

theorem tornIds_append {n : Nat} (l1 l2 : List (Event n)) :
    tornIds (l1 ++ l2) = tornIds l1 ++ tornIds l2 :=
  List.filterMap_append l1 l2 _

theorem finish_node_log {n : Nat} (g : Graph n) (j : Fin n) (st : RSt n) :
    (RunnerNode.finish_node g j st).log = st.log := by
  unfold RunnerNode.finish_node RunnerNode.reset RSt.setNode
  dsimp only
  split <;> rfl

theorem foldl_finish_node_log {n : Nat} (g : Graph n) (l : List (Fin n)) :
    ∀ st : RSt n, (l.foldl (fun s j => RunnerNode.finish_node g j s) st).log = st.log := by
  induction l with
  | nil => intro st; rfl
  | cons c cs ih => intro st; rw [List.foldl_cons, ih, finish_node_log]

/-- `RunnerNode.execute_teardown` appends exactly one `toreNode` event. -/
theorem execute_teardown_log {n : Nat} (g : Graph n) (beh : TaskBeh n)
    (i : Fin n) (st : RSt n) :
    (RunnerNode.execute_teardown g beh i st).2.log = st.log ++ [Event.toreNode i] := by
  unfold RunnerNode.execute_teardown
  dsimp only
  split_ifs <;> simp [finish_node_log, foldl_finish_node_log, RSt.setNode]

/-- Appending one justified element preserves `expansionSeenB`. -/
theorem expansionSeenB_snoc {n : Nat} (g : Graph n) (S : Finset (Fin n)) :
    ∀ (l seen : List (Fin n)) (t : Fin n),
      expansionSeenB g S seen l = true →
      (t ∈ S ∨ ∃ c ∈ seen ++ l, t ∈ g.parents c) →
      expansionSeenB g S seen (l ++ [t]) = true := by
  intro l
  induction l with
  | nil =>
    intro seen t _ hj
    show ((decide (t ∈ S) || seen.any fun c => (g.parents c).contains t)
        && expansionSeenB g S (seen ++ [t]) []) = true
    have hc : (decide (t ∈ S) || seen.any fun c => (g.parents c).contains t) = true := by
      rcases hj with h | ⟨c, hc, hp⟩
      · simp [h]
      · refine Bool.or_eq_true_iff.mpr (Or.inr ?_)
        refine List.any_eq_true.mpr ⟨c, by simpa using hc, ?_⟩
        simpa using hp
    rw [hc]
    rfl
  | cons x xs ih =>
    intro seen t hl hj
    rw [List.cons_append]
    have hl' := hl
    rw [show expansionSeenB g S seen (x :: xs)
        = ((decide (x ∈ S) || seen.any fun c => (g.parents c).contains x)
            && expansionSeenB g S (seen ++ [x]) xs) from rfl] at hl'
    obtain ⟨c1, c2⟩ := Bool.and_eq_true_iff.mp hl'
    rw [show expansionSeenB g S seen (x :: (xs ++ [t]))
        = ((decide (x ∈ S) || seen.any fun c => (g.parents c).contains x)
            && expansionSeenB g S (seen ++ [x]) (xs ++ [t])) from rfl]
    rw [c1]
    rw [Bool.true_and]
    refine ih (seen ++ [x]) t c2 ?_
    rcases hj with h | ⟨c, hc, hp⟩
    · exact Or.inl h
    · refine Or.inr ⟨c, ?_, hp⟩
      have : c ∈ seen ++ x :: xs := hc
      simp only [List.append_assoc, List.singleton_append]
      simpa using this

/-- The loop invariant of `teardown_outstanding`, established by
induction on the fuel.  For a run that returns normally: every node torn
down is a non-ancestor parent-reachable from the candidate set `S`;
every non-ancestor on the worklist gets torn down; the torn set is
closed under non-ancestor parents; earlier teardowns are preserved; and
every torn node is either in `S` or a parent of a node torn before it. -/
theorem teardown_go_inv {n : Nat} (g : Graph n) (beh : TaskBeh n)
    (pick : Finset (Fin n) → Fin n) (anc : Finset (Fin n)) (S : Finset (Fin n))
    (hpick : ∀ s : Finset (Fin n), s ≠ ∅ → pick s ∈ s) :
    ∀ (fuel : Nat) (work : Finset (Fin n)) (st : RSt n),
      (∀ x ∈ work, ∃ s ∈ S, ParentReach g s x) →
      (∀ x ∈ work, x ∈ S ∨ ∃ c ∈ tornIds st.log, x ∈ g.parents c) →
      (∀ t ∈ tornIds st.log, t ∉ anc ∧ ∃ s ∈ S, ParentReach g s t) →
      (∀ t ∈ tornIds st.log, ∀ p ∈ g.parents t, p ∉ anc →
        p ∈ work ∨ p ∈ tornIds st.log) →
      expansionSeenB g S [] (tornIds st.log) = true →
      (RunnerNode.teardown_go g beh pick anc fuel work st).1 = .ok () →
      (∀ t ∈ tornIds (RunnerNode.teardown_go g beh pick anc fuel work st).2.2.log,
          t ∉ anc ∧ ∃ s ∈ S, ParentReach g s t) ∧
      (∀ x ∈ work, x ∉ anc →
          x ∈ tornIds (RunnerNode.teardown_go g beh pick anc fuel work st).2.2.log) ∧
      (∀ t ∈ tornIds (RunnerNode.teardown_go g beh pick anc fuel work st).2.2.log,
          ∀ p ∈ g.parents t, p ∉ anc →
          p ∈ tornIds (RunnerNode.teardown_go g beh pick anc fuel work st).2.2.log) ∧
      (∀ t ∈ tornIds st.log,
          t ∈ tornIds (RunnerNode.teardown_go g beh pick anc fuel work st).2.2.log) ∧
      expansionSeenB g S []
        (tornIds (RunnerNode.teardown_go g beh pick anc fuel work st).2.2.log) = true := by
  intro fuel
  induction fuel with
  | zero =>
    intro work st _ _ _ _ _ hok
    simp [RunnerNode.teardown_go] at hok
  | succ f ih =>
    intro work st hreach hseen hsound hclosed hexp hok
    rw [RunnerNode.teardown_go] at hok ⊢
    by_cases hw : work = ∅
    · simp only [hw, if_pos rfl] at hok ⊢
      refine ⟨hsound, ?_, ?_, fun t ht => ht, hexp⟩
      · intro x hx
        exact absurd hx (Finset.not_mem_empty x)
      · intro t ht p hp hpanc
        rcases hclosed t ht p hp hpanc with h | h
        · rw [hw] at h
          exact absurd h (Finset.not_mem_empty p)
        · exact h
    · simp only [if_neg hw] at hok ⊢
      have hmem : pick work ∈ work := hpick work hw
      set t := pick work with hT
      by_cases hanc : t ∈ anc
      · simp only [if_pos hanc] at hok ⊢
        have h1 : ∀ x ∈ work.erase t, ∃ s ∈ S, ParentReach g s x :=
          fun x hx => hreach x (Finset.mem_of_mem_erase hx)
        have h2 : ∀ x ∈ work.erase t, x ∈ S ∨ ∃ c ∈ tornIds st.log, x ∈ g.parents c :=
          fun x hx => hseen x (Finset.mem_of_mem_erase hx)
        have h4 : ∀ t' ∈ tornIds st.log, ∀ p ∈ g.parents t', p ∉ anc →
            p ∈ work.erase t ∨ p ∈ tornIds st.log := by
          intro t' ht' p hp hpanc
          rcases hclosed t' ht' p hp hpanc with h | h
          · left
            refine Finset.mem_erase.mpr ⟨?_, h⟩
            intro he; exact hpanc (he ▸ hanc)
          · right; exact h
        have := ih (work.erase t) st h1 h2 hsound h4 hexp hok
        refine ⟨this.1, ?_, this.2.2.1, this.2.2.2.1, this.2.2.2.2⟩
        intro x hx hxanc
        by_cases hxt : x = t
        · exact absurd (hxt ▸ hanc) hxanc
        · exact this.2.1 x (Finset.mem_erase.mpr ⟨hxt, hx⟩) hxanc
      · simp only [if_neg hanc] at hok ⊢
        cases hres : RunnerNode.execute_teardown g beh t st with
        | mk o st1 =>
          cases o with
          | error e =>
            rw [hres] at hok
            simp at hok
          | ok u =>
            rw [hres] at hok
            dsimp only at hok ⊢
            have hlog1 : st1.log = st.log ++ [Event.toreNode t] := by
              have := execute_teardown_log g beh t st
              rw [hres] at this
              exact this
            have htorn1 : tornIds st1.log = tornIds st.log ++ [t] := by
              rw [hlog1, tornIds_append]; rfl
            set work2 := work.erase t ∪ (g.parents t).toFinset with hw2
            have hreach_t : ∃ s ∈ S, ParentReach g s t := hreach t hmem
            have h1 : ∀ x ∈ work2, ∃ s ∈ S, ParentReach g s x := by
              intro x hx
              rcases Finset.mem_union.mp hx with h | h
              · exact hreach x (Finset.mem_of_mem_erase h)
              · obtain ⟨s, hs, hr⟩ := hreach_t
                exact ⟨s, hs, Relation.ReflTransGen.tail hr (List.mem_toFinset.mp h)⟩
            have h2 : ∀ x ∈ work2, x ∈ S ∨ ∃ c ∈ tornIds st1.log, x ∈ g.parents c := by
              intro x hx
              rcases Finset.mem_union.mp hx with h | h
              · rcases hseen x (Finset.mem_of_mem_erase h) with h' | ⟨c, hc, hcp⟩
                · exact Or.inl h'
                · exact Or.inr ⟨c, by rw [htorn1]; exact List.mem_append_left _ hc, hcp⟩
              · exact Or.inr ⟨t, by rw [htorn1]; simp, List.mem_toFinset.mp h⟩
            have h3 : ∀ t' ∈ tornIds st1.log, t' ∉ anc ∧ ∃ s ∈ S, ParentReach g s t' := by
              intro t' ht'
              rw [htorn1] at ht'
              rcases List.mem_append.mp ht' with h | h
              · exact hsound t' h
              · have : t' = t := by simpa using h
                exact this ▸ ⟨hanc, hreach_t⟩
            have h4 : ∀ t' ∈ tornIds st1.log, ∀ p ∈ g.parents t', p ∉ anc →
                p ∈ work2 ∨ p ∈ tornIds st1.log := by
              intro t' ht' p hp hpanc
              rw [htorn1] at ht'
              rcases List.mem_append.mp ht' with h | h
              · rcases hclosed t' h p hp hpanc with h' | h'
                · by_cases hpt : p = t
                  · right; rw [htorn1]; simp [hpt]
                  · left; exact Finset.mem_union_left _ (Finset.mem_erase.mpr ⟨hpt, h'⟩)
                · right; rw [htorn1]; exact List.mem_append_left _ h'
              · have : t' = t := by simpa using h
                subst this
                left
                exact Finset.mem_union_right _ (List.mem_toFinset.mpr hp)
            have h5 : expansionSeenB g S [] (tornIds st1.log) = true := by
              rw [htorn1]
              refine expansionSeenB_snoc g S (tornIds st.log) [] t hexp ?_
              rcases hseen t hmem with h | ⟨c, hc, hcp⟩
              · exact Or.inl h
              · exact Or.inr ⟨c, by simpa using hc, hcp⟩
            have := ih work2 st1 h1 h2 h3 h4 h5 hok
            refine ⟨this.1, ?_, this.2.2.1, ?_, this.2.2.2.2⟩
            · intro x hx hxanc
              by_cases hxt : x = t
              · subst hxt
                exact this.2.2.2.1 t (by rw [htorn1]; simp)
              · exact this.2.1 x
                  (Finset.mem_union_left _ (Finset.mem_erase.mpr ⟨hxt, hx⟩)) hxanc
            · intro t' ht'
              exact this.2.2.2.1 t' (by rw [htorn1]; exact List.mem_append_left _ ht')

/-- Witness for C2 on a two-node graph where node 0 fails and node 1 is
its child. -/
theorem C2_witness :
    (((RSt.init 2).setNode 0 ⟨some .FAIL, some 3, some 4, false, false, false⟩).node 0).status
      = some TaskStatus.FAIL ∧
    ((((RunnerNode.update_status
          (⟨fun i => if i = 1 then [0] else [], fun i => if i = 0 then [1] else []⟩ : Graph 2)
          ⟨fun _ _ => Option.none, fun _ _ => Option.none, fun _ _ => Option.none,
            fun _ => false, fun _ => false⟩
          RunOptions.default 0
          ((RSt.init 2).setNode 0 ⟨some .FAIL, some 3, some 4, false, false, false⟩)).2.node
        1).children_complete = true) ∧
     (((RunnerNode.update_status
          (⟨fun i => if i = 1 then [0] else [], fun i => if i = 0 then [1] else []⟩ : Graph 2)
          ⟨fun _ _ => Option.none, fun _ _ => Option.none, fun _ _ => Option.none,
            fun _ => false, fun _ => false⟩
          RunOptions.default 0
          ((RSt.init 2).setNode 0 ⟨some .FAIL, some 3, some 4, false, false, false⟩)).2.node
        1).complete = true) ∧
     (((RunnerNode.update_status
          (⟨fun i => if i = 1 then [0] else [], fun i => if i = 0 then [1] else []⟩ : Graph 2)
          ⟨fun _ _ => Option.none, fun _ _ => Option.none, fun _ _ => Option.none,
            fun _ => false, fun _ => false⟩
          RunOptions.default 0
          ((RSt.init 2).setNode 0 ⟨some .FAIL, some 3, some 4, false, false, false⟩)).2.node
        1).status = some TaskStatus.FAIL) ∧
     (((RunnerNode.update_status
          (⟨fun i => if i = 1 then [0] else [], fun i => if i = 0 then [1] else []⟩ : Graph 2)
          ⟨fun _ _ => Option.none, fun _ _ => Option.none, fun _ _ => Option.none,
            fun _ => false, fun _ => false⟩
          RunOptions.default 0
          ((RSt.init 2).setNode 0 ⟨some .FAIL, some 3, some 4, false, false, false⟩)).2.node
        1).error =
        ((((RSt.init 2).setNode 0 ⟨some .FAIL, some 3, some 4, false, false, false⟩)).node 0).error) ∧
     (((RunnerNode.update_status
          (⟨fun i => if i = 1 then [0] else [], fun i => if i = 0 then [1] else []⟩ : Graph 2)
          ⟨fun _ _ => Option.none, fun _ _ => Option.none, fun _ _ => Option.none,
            fun _ => false, fun _ => false⟩
          RunOptions.default 0
          ((RSt.init 2).setNode 0 ⟨some .FAIL, some 3, some 4, false, false, false⟩)).2.node
        1).error_text =
        ((((RSt.init 2).setNode 0 ⟨some .FAIL, some 3, some 4, false, false, false⟩)).node 0).error_text)) :=
  ⟨by decide,
    (C2_update_status_cascades
      (⟨fun i => if i = 1 then [0] else [], fun i => if i = 0 then [1] else []⟩ : Graph 2)
      ⟨fun _ _ => Option.none, fun _ _ => Option.none, fun _ _ => Option.none,
        fun _ => false, fun _ => false⟩
      0 ((RSt.init 2).setNode 0 ⟨some .FAIL, some 3, some 4, false, false, false⟩)
      TaskStatus.FAIL (by decide) (Or.inr (Or.inl rfl))).2.2.2.2 1
      (Relation.ReflTransGen.single (by decide)) (by decide)⟩

/-- Claim C6: after `Task.execute_teardown` the status is never unset: an
exception raised while running the teardown callbacks makes it
`CATASTROPHIC` (overriding any prior status); with no exception, an unset
status becomes `SUCCESS` and a set status is preserved. -/
theorem C6_execute_teardown_status (raises : Nat → Bool) (t : Task) :
    (Task.execute_teardown raises t).1.status =
      (if (Task.teardown raises t.teardown_stack).raised.isSome
       then some TaskStatus.CATASTROPHIC
       else if t.status = Option.none then some TaskStatus.SUCCESS
       else t.status)
    ∧ (Task.execute_teardown raises t).1.status ≠ Option.none := by
  unfold Task.execute_teardown
  cases h : (Task.teardown raises t.teardown_stack).raised with
  | none => cases hs : t.status <;> simp [h, hs]
  | some f => simp [h]

/-- Claim C7: `teardown_to_function(fcn)` pops callbacks in LIFO order
(most recently registered first), invoking each popped callback, and
returns right after invoking `fcn`; if the stack is exhausted without
encountering `fcn`, every callback has been popped and invoked and an
`AssertionError` is raised.  (Stated for callbacks that do not themselves
raise, the situation the claim describes.) -/
theorem C7_teardown_to_function (raises : Nat → Bool) (fcn : Nat)
    (s : List Nat) (h : ∀ f ∈ s, raises f = false) :
    Task.teardown_to_function raises fcn s =
      if fcn ∈ s then
        ((s.dropWhile (fun x => x != fcn)).tail,
         s.takeWhile (fun x => x != fcn) ++ [fcn], .returned)
      else ([], s, .assertionError) := by
  induction s with
  | nil => simp [Task.teardown_to_function]
  | cons f rest ih =>
    have hf : raises f = false := h f (by simp)
    have hrest : ∀ x ∈ rest, raises x = false := fun x hx => h x (by simp [hx])
    by_cases hq : f = fcn
    · subst hq
      simp [Task.teardown_to_function, hf]
    · have : (f != fcn) = true := by simp [hq]
      by_cases hmem : fcn ∈ rest
      · simp [Task.teardown_to_function, hf, hq, ih hrest, hmem, this]
      · have hq' : ¬fcn = f := fun hh => hq hh.symm
        simp [Task.teardown_to_function, hf, hq, hq', ih hrest, hmem]

/-- Witness for C7 at a concrete stack. -/
theorem C7_witness :
    (∀ f ∈ [5, 7], (fun _ => false) f = false) ∧
    Task.teardown_to_function (fun _ => false) 7 [5, 7] =
      (if 7 ∈ [5, 7] then
        (([5, 7].dropWhile (fun x => x != 7)).tail,
         [5, 7].takeWhile (fun x => x != 7) ++ [7], .returned)
      else ([], [5, 7], .assertionError)) :=
  ⟨by decide, C7_teardown_to_function (fun _ => false) 7 [5, 7] (by decide)⟩

/-- Claim C10: when a popped teardown callback raises, the callbacks
registered before it stay on `teardown_stack` and are not invoked; the
exception propagates into `execute_teardown`, which records status
`CATASTROPHIC`, so the leftover callbacks never run during that call.
(`pre` is the part of the stack above the raising callback `f`.) -/
theorem C10_teardown_stops_at_raise (raises : Nat → Bool) (t : Task)
    (pre rest : List Nat) (f : Nat)
    (hpre : ∀ x ∈ pre, raises x = false) (hf : raises f = true) :
    Task.teardown raises (pre ++ f :: rest) = ⟨rest, pre ++ [f], some f⟩ ∧
    (Task.execute_teardown raises
        { t with teardown_stack := pre ++ f :: rest }).1.status
      = some TaskStatus.CATASTROPHIC ∧
    (Task.execute_teardown raises
        { t with teardown_stack := pre ++ f :: rest }).1.teardown_stack = rest ∧
    (Task.execute_teardown raises
        { t with teardown_stack := pre ++ f :: rest }).2 = pre ++ [f] := by
  have hrun : Task.teardown raises (pre ++ f :: rest) = ⟨rest, pre ++ [f], some f⟩ := by
    induction pre with
    | nil => simp [Task.teardown, hf]
    | cons x xs ih =>
      have hx : raises x = false := hpre x (by simp)
      have hxs : ∀ y ∈ xs, raises y = false := fun y hy => hpre y (by simp [hy])
      simp [Task.teardown, hx, ih hxs]
  refine ⟨hrun, ?_, ?_, ?_⟩ <;> simp [Task.execute_teardown, hrun]

/-- Witness for C10 at a concrete stack. -/
theorem C10_witness :
    (∀ x ∈ [4], (fun k => k == 9) x = false) ∧ ((fun k => k == 9) 9 = true) ∧
    (Task.teardown (fun k => k == 9) ([4] ++ 9 :: [2, 3]) = ⟨[2, 3], [4] ++ [9], some 9⟩ ∧
     (Task.execute_teardown (fun k => k == 9)
        { (⟨0, 0, Option.none, Option.none, Option.none, []⟩ : Task) with
            teardown_stack := [4] ++ 9 :: [2, 3] }).1.status
        = some TaskStatus.CATASTROPHIC ∧
     (Task.execute_teardown (fun k => k == 9)
        { (⟨0, 0, Option.none, Option.none, Option.none, []⟩ : Task) with
            teardown_stack := [4] ++ 9 :: [2, 3] }).1.teardown_stack = [2, 3] ∧
     (Task.execute_teardown (fun k => k == 9)
        { (⟨0, 0, Option.none, Option.none, Option.none, []⟩ : Task) with
            teardown_stack := [4] ++ 9 :: [2, 3] }).2 = [4] ++ [9]) :=
  ⟨by decide, by decide,
    C10_teardown_stops_at_raise (fun k => k == 9)
      ⟨0, 0, Option.none, Option.none, Option.none, []⟩ [4] [2, 3] 9
      (by decide) (by decide)⟩

/-- Counterexample to claim C8: `clone()` passes `self.args` by
reference (`Task.__init__` stores `args or {}`), so for a task with
non-empty args the clone aliases the same dict object: mutating the
clone's args changes the original's args. -/
theorem C8_counterexample_clone_aliases :
    ((Task.clone (⟨[[("a", TaskArgValue.int 1)]]⟩ : Store)
        ⟨0, 0, Option.none, Option.none, Option.none, []⟩).1.argsRef
      = (⟨0, 0, Option.none, Option.none, Option.none, []⟩ : Task).argsRef) ∧
    ((Task.clone (⟨[[("a", TaskArgValue.int 1)]]⟩ : Store)
        ⟨0, 0, Option.none, Option.none, Option.none, []⟩).2
      = (⟨[[("a", TaskArgValue.int 1)]]⟩ : Store)) ∧
    (((⟨[[("a", TaskArgValue.int 1)]]⟩ : Store).put
        (Task.clone (⟨[[("a", TaskArgValue.int 1)]]⟩ : Store)
          ⟨0, 0, Option.none, Option.none, Option.none, []⟩).1.argsRef
        (dictSet ((⟨[[("a", TaskArgValue.int 1)]]⟩ : Store).get
          (Task.clone (⟨[[("a", TaskArgValue.int 1)]]⟩ : Store)
            ⟨0, 0, Option.none, Option.none, Option.none, []⟩).1.argsRef)
          "a" (TaskArgValue.int 2))).get
      (⟨0, 0, Option.none, Option.none, Option.none, []⟩ : Task).argsRef
      = [("a", TaskArgValue.int 2)]) ∧
    ((⟨[[("a", TaskArgValue.int 1)]]⟩ : Store).get
        (⟨0, 0, Option.none, Option.none, Option.none, []⟩ : Task).argsRef
      = [("a", TaskArgValue.int 1)]) := by
  refine ⟨rfl, rfl, rfl, rfl⟩

/-- Claim C8 as amended: `clone()` constructs a fresh instance of the
same class whose args mapping equals the original's; but the args dict is
shared, not copied: for non-empty args the clone holds the very same dict
object (so mutations are visible through both), and only for empty args
does it get a fresh empty dict. -/
theorem C8_amended_clone_shares_args (σ : Store) (t : Task) :
    (Task.clone σ t).1.cls = t.cls ∧
    (Task.clone σ t).1.status = Option.none ∧
    (Task.clone σ t).1.teardown_stack = [] ∧
    (Task.clone σ t).2.get (Task.clone σ t).1.argsRef = σ.get t.argsRef ∧
    (if σ.get t.argsRef = [] then (Task.clone σ t).2.dicts = σ.dicts ++ [[]]
     else (Task.clone σ t).1.argsRef = t.argsRef ∧ (Task.clone σ t).2 = σ) := by
  by_cases h : σ.get t.argsRef = []
  · refine ⟨?_, ?_, ?_, ?_, ?_⟩ <;>
      simp [Task.clone, Task.init, Store.alloc, Store.get, h] at * <;>
      simp [List.getD, h]
  · refine ⟨?_, ?_, ?_, ?_, ?_⟩ <;> simp [Task.clone, Task.init, h]

/-! ## `RunnerGraph.add_task` deduplication (claims C4 and C5) -/

theorem dictGet_dictSet_self {α β : Type} [DecidableEq α] (l : List (α × β)) (k : α) (v : β) :
    dictGet (dictSet l k v) k = some v := by
  induction l with
  | nil => simp [dictSet, dictGet]
  | cons kv rest ih =>
    obtain ⟨k0, v0⟩ := kv
    by_cases h : k0 = k
    · simp [dictSet, dictGet, h]
    · simp [dictSet, dictGet, h, ih]

theorem appendChild_all_nodes (g : GraphState) (p nid : Nat) :
    (appendChild g p nid).all_nodes = g.all_nodes := by
  unfold appendChild
  cases g.nodes.get? p <;> rfl

theorem foldl_appendChild_all_nodes (l : List Nat) (nid : Nat) :
    ∀ g : GraphState,
      (l.foldl (fun gg p => appendChild gg p nid) g).all_nodes = g.all_nodes := by
  induction l with
  | nil => intro g; rfl
  | cons p ps ih => intro g; rw [List.foldl_cons, ih, appendChild_all_nodes]

/-- After `add_task(task, allow_duplicate=False)` succeeds, the task's
key maps to the returned node: either it was already registered (early
return), or the new node was just registered under it (and the later
root/children updates leave `all_nodes` alone). -/
theorem add_task_registers (env : List TaskCls) (fuel : Nat) (t : Task)
    (g : GraphState) (σ : Store) (n1 : Nat) (g1 : GraphState) (σ1 : Store)
    (h : RunnerGraph.add_task env (fuel + 1) t false g σ = some (n1, g1, σ1)) :
    dictGet g1.all_nodes (RunnerNode.generate_key env σ t) = some n1 := by
  rw [RunnerGraph.add_task] at h
  dsimp only at h
  cases hk : dictGet g.all_nodes (RunnerNode.generate_key env σ t) with
  | some nid =>
    rw [hk] at h
    simp only [Option.some.injEq, Prod.mk.injEq] at h
    obtain ⟨h1, h2, h3⟩ := h
    rw [← h1, ← h2]
    exact hk
  | none =>
    rw [hk] at h
    cases hp : RunnerGraph.add_parents env (RunnerGraph.add_task env fuel) t
        ((clsGet env t.cls).parents) g σ [] with
    | none => rw [hp] at h; exact absurd h (by simp)
    | some r =>
      obtain ⟨pn, gp, σp⟩ := r
      rw [hp] at h
      simp only [Bool.false_eq_true, if_false, Option.some.injEq, Prod.mk.injEq] at h
      obtain ⟨h1, h2, h3⟩ := h
      rw [← h1, ← h2]
      rw [foldl_appendChild_all_nodes]
      split <;> exact dictGet_dictSet_self _ _ _

/-- Claim C4 as amended: node identity is the fully-qualified class name
together with the args **in insertion order** (via `str(task)`), not
sorted: a second task instance of the same class whose args dict has the
same key-value sequence is deduplicated onto the node the first add
produced, whatever `allow_duplicate` is. -/
theorem C4_amended_dedup_insertion_order (env : List TaskCls) (σ σ1 : Store)
    (t1 t2 : Task) (g g1 : GraphState) (fuel1 fuel2 : Nat) (b : Bool) (n1 : Nat)
    (hcls : t2.cls = t1.cls)
    (hargs : σ1.get t2.argsRef = σ.get t1.argsRef)
    (hadd : RunnerGraph.add_task env (fuel1 + 1) t1 false g σ = some (n1, g1, σ1)) :
    RunnerGraph.add_task env (fuel2 + 1) t2 b g1 σ1 = some (n1, g1, σ1) := by
  have hkey : RunnerNode.generate_key env σ1 t2 = RunnerNode.generate_key env σ t1 := by
    unfold RunnerNode.generate_key Task.toStr
    rw [hcls, hargs]
  have hreg := add_task_registers env fuel1 t1 g σ n1 g1 σ1 hadd
  rw [RunnerGraph.add_task]
  dsimp only
  rw [hkey, hreg]

/-- Witness for C4: adding a second instance of `m.T` with an identical
args sequence returns the node of the first (here even with
`allow_duplicate=True`, which only matters for unregistered keys). -/
theorem C4_witness :
    exT1.cls = exT0.cls ∧
    exSigSame.get exT1.argsRef = exSigSame.get exT0.argsRef ∧
    RunnerGraph.add_task exEnv 1 exT0 false GraphState.empty exSigSame
      = some (0, exGOne, exSigSame) ∧
    RunnerGraph.add_task exEnv 1 exT1 true exGOne exSigSame
      = some (0, exGOne, exSigSame) :=
  ⟨rfl, rfl, by decide,
    C4_amended_dedup_insertion_order exEnv exSigSame exSigSame exT0 exT1
      GraphState.empty exGOne 0 0 true 0 rfl rfl (by decide)⟩

/-- Counterexample to claim C4: two instances of the same
fully-qualified class whose args are equal **as mappings** but inserted
in a different order do **not** share a RunnerNode: `str(task)` lists
args in dict insertion order (not sorted), the keys differ, and the
second `add_task` creates a second node (`(1, 2)` below: node id 1, two
nodes in the arena). -/
theorem C4_counterexample_mapping_equal_args_not_shared :
    dictEqB (exSigSwap.get exT0.argsRef) (exSigSwap.get exT1.argsRef) = true ∧
    exT0.cls = exT1.cls ∧
    (RunnerGraph.add_task exEnv 2 exT0 false GraphState.empty exSigSwap).map
      (fun r => r.1) = some 0 ∧
    ((RunnerGraph.add_task exEnv 2 exT0 false GraphState.empty exSigSwap).bind
      (fun r => RunnerGraph.add_task exEnv 2 exT1 false r.2.1 r.2.2)).map
      (fun r => (r.1, r.2.1.nodes.length)) = some (1, 2) := by
  decide

/-- Claim C5 as amended: for a task whose node key is already registered
in `all_nodes`, `add_task` returns the registered node and leaves the
graph untouched **regardless of `allow_duplicate`** (the flag is
consulted only for unregistered keys, where it suppresses
registration). -/
theorem C5_amended_registered_key_wins (env : List TaskCls) (σ : Store) (t : Task)
    (g : GraphState) (fuel : Nat) (b : Bool) (nid : Nat)
    (h : dictGet g.all_nodes (RunnerNode.generate_key env σ t) = some nid) :
    RunnerGraph.add_task env (fuel + 1) t b g σ = some (nid, g, σ) := by
  rw [RunnerGraph.add_task]
  dsimp only
  rw [h]

/-- Witness for C5 on the one-node fixture graph. -/
theorem C5_witness :
    dictGet exGOne.all_nodes (RunnerNode.generate_key exEnv exSigSame exT0) = some 0 ∧
    RunnerGraph.add_task exEnv 5 exT0 true exGOne exSigSame = some (0, exGOne, exSigSame) :=
  ⟨by decide,
    C5_amended_registered_key_wins exEnv exSigSame exT0 exGOne 4 true 0 (by decide)⟩

/-- Counterexample to claim C5: with the key already registered and
`allow_duplicate=True`, `add_task` does **not** create a new RunnerNode —
it returns the existing node 0 and the graph still holds a single
node. -/
theorem C5_counterexample_no_new_node :
    RunnerGraph.add_task exEnv 2 exT0 false GraphState.empty exSigSame
      = some (0, exGOne, exSigSame) ∧
    RunnerGraph.add_task exEnv 2 exT0 true exGOne exSigSame = some (0, exGOne, exSigSame) ∧
    exGOne.nodes.length = 1 := by
  decide

/-- Counterexample to claim C1: the torn-down nodes are not processed
bottom-up.  With candidates `S = {1, 2}` where node 2 is node 1's parent
(and neither is an ancestor of `wrt = 0`), the worklist draw modelled by
`exPickMax` — a possible `random.choice` under `opts.random_order`, and
a possible set iteration order otherwise — tears down the parent 2
before its child 1 (and tears 2 down twice, because tearing 1 re-adds
its parents to the worklist).  The call returns normally, yet
`bottomUpB` (a node is torn down before each of its parents) fails on
the teardown order. -/
theorem C1_counterexample_not_bottom_up :
    (2 : Fin 3) ∈ exG1.parents 1 ∧
    (RunnerNode.teardown_outstanding exG1 exBehNone exPickMax 10 {1, 2} 0 (RSt.init 3)).1
      = .ok () ∧
    tornIds (RunnerNode.teardown_outstanding exG1 exBehNone exPickMax 10 {1, 2} 0
        (RSt.init 3)).2.2.log = [2, 1, 2] ∧
    bottomUpB exG1
      (tornIds (RunnerNode.teardown_outstanding exG1 exBehNone exPickMax 10 {1, 2} 0
        (RSt.init 3)).2.2.log) = false := by
  decide

/-- Claim C1 as amended: for every call `teardown_outstanding(S, wrt,
opts)` that returns normally (whatever order the worklist is drawn in),
`execute_teardown` is invoked exactly on nodes that are not ancestors of
`wrt` (not in `wrt.reversed()`) and are reachable from some candidate in
`S` by walking up parents; conversely every such node is torn down
(possibly more than once).  The order is bottom-up only in the weak
sense that a torn-down node outside `S` is first reached as a parent of
a node torn down before it (`expansionSeenB`); a full "child before
parent" order is not guaranteed (see the counterexample). -/
theorem C1_amended_teardown_outstanding {n : Nat} (g : Graph n) (beh : TaskBeh n)
    (pick : Finset (Fin n) → Fin n) (fuel : Nat) (S : Finset (Fin n))
    (wrt : Fin n) (st : RSt n)
    (hpick : ∀ s : Finset (Fin n), s ≠ ∅ → pick s ∈ s)
    (hlog : st.log = [])
    (hok : (RunnerNode.teardown_outstanding g beh pick fuel S wrt st).1 = .ok ()) :
    (∀ x ∈ tornIds (RunnerNode.teardown_outstanding g beh pick fuel S wrt st).2.2.log,
        x ∉ RunnerNode.ancestorSet g wrt ∧ ∃ s ∈ S, ParentReach g s x) ∧
    (∀ x, x ∉ RunnerNode.ancestorSet g wrt → (∃ s ∈ S, ParentReach g s x) →
        x ∈ tornIds (RunnerNode.teardown_outstanding g beh pick fuel S wrt st).2.2.log) ∧
    expansionSeenB g S []
      (tornIds (RunnerNode.teardown_outstanding g beh pick fuel S wrt st).2.2.log) = true := by
  have h0 : tornIds st.log = [] := by rw [hlog]; rfl
  have inv := teardown_go_inv g beh pick (RunnerNode.ancestorSet g wrt) S hpick fuel S st
    (fun x hx => ⟨x, hx, Relation.ReflTransGen.refl⟩)
    (fun x hx => Or.inl hx)
    (by rw [h0]; exact fun t ht => absurd ht (List.not_mem_nil t))
    (by rw [h0]; exact fun t ht => absurd ht (List.not_mem_nil t))
    (by rw [h0]; rfl)
    hok
  refine ⟨inv.1, ?_, inv.2.2.2.2⟩
  rintro x hxanc ⟨s, hsS, hreach⟩
  have key : ∀ y, ParentReach g s y → y ∉ RunnerNode.ancestorSet g wrt →
      y ∈ tornIds (RunnerNode.teardown_outstanding g beh pick fuel S wrt st).2.2.log := by
    intro y hy
    induction hy with
    | refl => intro h; exact inv.2.1 s hsS h
    | tail hr hstep ih =>
      rename_i b c
      intro hcanc
      have hbanc : b ∉ RunnerNode.ancestorSet g wrt :=
        fun hb => hcanc (ancestorSet_parents_closed g wrt b c hb hstep)
      exact inv.2.2.1 b (ih hbanc) c hstep hcanc
  exact key x hreach hxanc

/-- Witness for C1 on the fixture graph: node 2 is torn down (it is a
non-ancestor reachable from the candidates) and the teardown trace is
expansion-ordered. -/
theorem C1_witness :
    ((2 : Fin 3) ∉ RunnerNode.ancestorSet exG1 0
      ∧ ∃ s ∈ ({1, 2} : Finset (Fin 3)), ParentReach exG1 s 2) ∧
    expansionSeenB exG1 {1, 2} []
      (tornIds (RunnerNode.teardown_outstanding exG1 exBehNone exPickMax 10 {1, 2} 0
        (RSt.init 3)).2.2.log) = true :=
  (fun h => ⟨h.1 2 (by decide), h.2.2⟩)
    (C1_amended_teardown_outstanding exG1 exBehNone exPickMax 10 {1, 2} 0 (RSt.init 3)
      (by decide) rfl (by decide))

/-- Claim C3 (a code bug): `failfast` is dead code.  `execute_run` calls
`self.update_status()` (`runner.py:468`) without passing `opts`, so
`update_status` constructs a default `RunOptions` whose `failfast` is
false and never raises `FinishRun` — the only place that exception is
raised.  On the fixture (root 0, children 1 and 2, node 1 fails, and
`opts.failfast = True`): node 1's task finishes `execute_run` with
status FAIL, yet the run continues — node 2's task is executed
afterwards (`ranIds = [0, 1, 2]`), `root.execute` returns normally
instead of raising FinishRun, and the run loop completes with an
ordinary unsuccessful result. -/
theorem C3_failfast_never_triggers :
    (RunnerNode.execute exG3 exBehFail1 ⟨false, true, Option.none⟩ exPickMin id 30 0
        Option.none Option.none (RSt.init 3)).1 = .ok ∅ ∧
    (RunnerGraph.run exG3 exBehFail1 ⟨false, true, Option.none⟩ exPickMin id 0 30
        (RSt.init 3)).1 = .ok false ∧
    (RunnerGraph.run exG3 exBehFail1 ⟨false, true, Option.none⟩ exPickMin id 0 30
        (RSt.init 3)).2.log =
      [Event.ranTask 0 Option.none, Event.ranTask 1 (some TaskStatus.FAIL),
       Event.toreNode 1, Event.ranTask 2 Option.none, Event.toreNode 2,
       Event.toreNode 0] ∧
    ranIds (RunnerGraph.run exG3 exBehFail1 ⟨false, true, Option.none⟩ exPickMin id 0 30
        (RSt.init 3)).2.log = [0, 1, 2] := by
  decide

/-- Claim C9 (a code bug): `args_from_str` forwards values to
`ast.literal_eval` without restricting them to the scalar kinds of its
declared result type `TaskAttributes`; the pair `k=[]` is accepted and
produces a list value instead of raising, while a pair without `=` does
raise the `invalid` ValueError. -/
theorem C9_args_from_str_accepts_lists :
    args_from_str "k=[]" = .ok [("k", PyLit.list [])] ∧
    args_from_str "k" = .error ("arg value k invalid") := by
  constructor <;> rfl

end AutomationTraverse
